import Mathlib

/-!
Shallow embedding of the session subsystem of `app/services/session_service.py`.

Modelling conventions, used throughout:

* `datetime.now()` is modelled as an explicit `now : Nat` argument to each
  operation (one tick per call); `isoformat` / `fromisoformat` round-trips are
  the identity, so timestamps stay `Nat` in the store.
* Python `Any` payloads (context values, message metadata values) are treated
  as opaque strings; the session code never inspects them.
* Python dicts are insertion-ordered association lists with unique keys;
  `d[k] = v` replaces in place keeping the position, otherwise appends.
* Firestore is modelled as two collections (`users`, `sessions`).  Every
  Firestore call pops one flag from a failure schedule (`oracle`); a `true`
  flag means that call raises.  An empty schedule means no store failures.
* `uuid.uuid4()` is a fresh-name source driven by a counter; only distinctness
  of successive ids matters.
* The in-memory cache `active_sessions` holds the very objects the service
  mutates, so every in-place Python mutation is modelled by writing the new
  session value back into the cache at its key.
-/

set_option autoImplicit false

namespace SessionService

/-- Opaque payload type standing for Python `Any` values. -/
abbrev Val := String

/-- Lookup in a Python dict modelled as an association list
(first entry with the key wins; dicts never hold duplicate keys). -/
def keyLookup {α : Type} : List (String × α) → String → Option α
  | [], _ => none
  | p :: d, k => if p.1 = k then some p.2 else keyLookup d k

/-- Python dict assignment `d[k] = v`: replaces the value in place when the key
is present (keeping its position), otherwise appends a new entry. -/
def dictInsert {α : Type} (k : String) (v : α) : List (String × α) → List (String × α)
  | [] => [(k, v)]
  | p :: d => if p.1 = k then (k, v) :: d else p :: dictInsert k v d

/-- Python `base.update(upd)`: shallow merge, the entries of `upd` written into
`base` in order; existing keys are overwritten in place, new keys appended. -/
def dictMerge (base upd : List (String × Val)) : List (String × Val) :=
  upd.foldl (fun acc kv => dictInsert kv.1 kv.2 acc) base

/-- `UserMessage` from `app/models/session_model.py`. -/
structure UserMessage where
  timestamp : Nat
  content : String
  agent_type : String
  metadata : List (String × Val)
deriving Repr, DecidableEq

/-- `UserSession` from `app/models/session_model.py`.  A stored Firestore
document carries the same fields (the service always writes full
`session.dict()` records), so the same type doubles as the document type; on
reads the document id, not the stored `session_id` field, names the session. -/
structure UserSession where
  session_id : String
  user_id : String
  created_at : Nat
  last_active : Nat
  messages : List UserMessage
  language_preference : String
  context : List (String × Val)
deriving Repr, DecidableEq

/-- `SessionResponse` from `app/models/session_model.py`. -/
structure SessionResponse where
  status : String
  session_id : String
  message : Option String
deriving Repr, DecidableEq

/-- Exceptions that a `SessionService` method can let escape to its caller.
`storeError` stands for an uncaught backing-store exception: the translation
of each method produces it exactly where the Python code would let a Firestore
exception propagate (nowhere, if the catch blocks are as the spec claims). -/
inductive Err where
  | valueError (msg : String)
  | nameError
  | storeError
deriving Repr, DecidableEq

/-- The full state of the service: the `users` collection (document ids), the
`sessions` collection, the in-memory `active_sessions` cache, the uuid
counter, and the store-failure schedule. -/
structure FS where
  users : List String
  sessions : List (String × UserSession)
  active_sessions : List (String × UserSession)
  next_uuid : Nat
  oracle : List Bool
deriving Repr, DecidableEq

/-- Pop the next store-failure flag (`true` = this Firestore call raises). -/
def takeFlag (st : FS) : Bool × FS :=
  match st.oracle with
  | [] => (false, st)
  | b :: rest => (b, { st with oracle := rest })

/-- `str(uuid.uuid4())` modelled as the n-th fresh name; only injectivity and
freshness with respect to the counter matter, not the format. -/
def genId (n : Nat) : String := String.mk (List.replicate (n + 1) 'u')

/-- `SessionService.user_exists` (lines 17-35): empty ids are rejected without
touching the store; a store failure during the document read is caught and
reported as "does not exist". -/
def user_exists (st : FS) (user_id : String) : Bool × FS :=
  if user_id = "" then (false, st)
  else
    match takeFlag st with
    | (true, st1) => (false, st1)
    | (false, st1) => (st1.users.contains user_id, st1)

/-- `SessionService.create_session` (lines 99-155).  On a store-write failure
the `except` branch builds a second session with a fresh uuid and caches it
memory-only (the first uuid is discarded with the failed write). -/
def create_session (st : FS) (user_id : String) (now : Nat) : UserSession × FS :=
  let sid1 := genId st.next_uuid
  let s1 : UserSession :=
    ⟨sid1, user_id, now, now, [], "english", []⟩
  let st1 := { st with next_uuid := st.next_uuid + 1 }
  match takeFlag st1 with
  | (true, st2) =>
    let sid2 := genId st2.next_uuid
    let s2 : UserSession := ⟨sid2, user_id, now, now, [], "english", []⟩
    let st3 := { st2 with next_uuid := st2.next_uuid + 1 }
    (s2, { st3 with active_sessions := dictInsert sid2 s2 st3.active_sessions })
  | (false, st2) =>
    let st3 := { st2 with sessions := dictInsert sid1 s1 st2.sessions }
    (s1, { st3 with active_sessions := dictInsert sid1 s1 st3.active_sessions })

/-- The in-memory scan `for session in self.active_sessions.values(): if
session.user_id == user_id: return session` (lines 56-58). -/
def cacheFindUser : List (String × UserSession) → String → Option UserSession
  | [], _ => none
  | p :: d, u => if p.2.user_id = u then some p.2 else cacheFindUser d u

/-- The Firestore query `where("user_id", "==", user_id).limit(1)`
(line 61): the first document of the collection owned by the user. -/
def queryByUser : List (String × UserSession) → String → Option (String × UserSession)
  | [], _ => none
  | p :: d, u => if p.2.user_id = u then some p else queryByUser d u

/-- Hydration of a stored document into a `UserSession` (lines 77-85): the
document id becomes the `session_id`; the stored `session_id` field is
ignored; timestamp parsing is the identity in this model. -/
def hydrate (session_id : String) (d : UserSession) : UserSession :=
  { d with session_id := session_id }

/-- The `try` body of `SessionService.get_session` (lines 54-97): in-memory
scan, then the user query (whose failure — and an empty result — both fall
back to `create_session`), hydrating and caching a found document. -/
def get_session_lookup (st1 : FS) (user_id : String) (now : Nat) :
    Except Err UserSession × FS :=
  match cacheFindUser st1.active_sessions user_id with
  | some s => (.ok s, st1)
  | none =>
    match takeFlag st1 with
    | (true, st2) =>
      let cs := create_session st2 user_id now
      (.ok cs.1, cs.2)
    | (false, st2) =>
      match queryByUser st2.sessions user_id with
      | some (sid, d) =>
        let s := hydrate sid d
        (.ok s, { st2 with active_sessions := dictInsert sid s st2.active_sessions })
      | none =>
        let cs := create_session st2 user_id now
        (.ok cs.1, cs.2)

/-- `SessionService.get_session` (lines 37-97).  Validation errors are raised
before the `try`; the body is `get_session_lookup`.  Note the short-circuit:
for the anonymous sentinel `user_exists` is never called (no store read). -/
def get_session (st : FS) (user_id : String) (now : Nat) :
    Except Err UserSession × FS :=
  if user_id = "" then
    (.error (.valueError "User ID cannot be empty"), st)
  else
    let va : Bool × FS :=
      if user_id ≠ "anonymous" then
        match user_exists st user_id with
        | (ex, st1) => (!ex, st1)
      else (false, st)
    match va with
    | (true, st1) =>
      (.error (.valueError ("User with ID " ++ user_id ++ " does not exist")), st1)
    | (false, st1) => get_session_lookup st1 user_id now

/-- `SessionService.add_message` (lines 211-263).  The `def` line declares
parameters `(self, session_id, message)`, but the body's first statement is
`if not user_id:` and the rest references `content`, `agent_type` and
`metadata` — none of these names is bound, so every call raises `NameError`
at that first statement, before the `try` and before any state is touched.
(Call sites throughout the repository invoke it with keyword arguments
`user_id=`, `content=`, `agent_type=`, `metadata=`, which the declared
signature rejects with `TypeError` just as fatally.)  Consequently the method
never appends a message and never returns a session id. -/
def add_message (st : FS) (session_id : String) (message : UserMessage) :
    Except Err String × FS :=
  (.error .nameError, st)

/-- Python's negative-index slice `xs[-limit:]`: for `limit = 0` this is
`xs[0:]`, the whole list; for `limit ≥ 1` the last `limit` elements. -/
def pySliceLast {α : Type} (limit : Nat) (xs : List α) : List α :=
  if limit = 0 then xs else xs.drop (xs.length - limit)

/-- `SessionService.get_user_history` (lines 265-284): resolves (or creates)
the user's session and truncates; any exception from `get_session` is caught
and yields `[]`.  The `limit` is a Python int; the claims only concern
non-negative values, modelled by `Nat`. -/
def get_user_history (st : FS) (user_id : String) (limit : Nat) (now : Nat) :
    List UserMessage × FS :=
  match get_session st user_id now with
  | (.ok s, st1) =>
    (if s.messages.length > limit then pySliceLast limit s.messages
     else s.messages, st1)
  | (.error _, st1) => ([], st1)

/-- `SessionService.get_session_by_id` (lines 286-350): direct lookup, cache
first then store, with the ownership check on whichever copy answers; empty
ids, missing documents and store failures all yield `None`. -/
def get_session_by_id (st : FS) (session_id : String) (user_id : String) :
    Option UserSession × FS :=
  if session_id = "" ∨ user_id = "" then (none, st)
  else
    match keyLookup st.active_sessions session_id with
    | some s =>
      if s.user_id = user_id then (some s, st) else (none, st)
    | none =>
      match takeFlag st with
      | (true, st1) => (none, st1)
      | (false, st1) =>
        match keyLookup st1.sessions session_id with
        | some d =>
          if d.user_id ≠ user_id then (none, st1)
          else
            let s := hydrate session_id d
            (some s, { st1 with active_sessions := dictInsert session_id s st1.active_sessions })
        | none => (none, st1)

/-- Firestore `document(session_id).update({context, last_active})`
(lines 197-202): raises on a store failure and also when the document does
not exist (the client's NotFound); otherwise patches the two fields.
Returns `(raised?, state)`. -/
def fsUpdateDoc (st : FS) (session_id : String) (ctx : List (String × Val))
    (la : Nat) : Bool × FS :=
  match takeFlag st with
  | (true, st1) => (true, st1)
  | (false, st1) =>
    match keyLookup st1.sessions session_id with
    | none => (true, st1)
    | some d =>
      let d1 := { d with context := ctx, last_active := la }
      (false, { st1 with sessions := dictInsert session_id d1 st1.sessions })

/-- Second half of `update_session_context` (lines 180-205): re-reads the
session from the cache, merges the update into its context in place, bumps
`last_active`, then patches the store.  The in-memory mutation precedes the
patch, so a failing patch still leaves the merge in the cache while the call
reports `None`. -/
def update_ctx_apply (st1 : FS) (session_id : String)
    (context_update : List (String × Val)) (now : Nat) :
    Option UserSession × FS :=
  match keyLookup st1.active_sessions session_id with
  | none => (none, st1)
  | some s =>
    let ctx := dictMerge s.context context_update
    let s1 := { s with context := ctx, last_active := now }
    let st2 := { st1 with active_sessions := dictInsert session_id s1 st1.active_sessions }
    match fsUpdateDoc st2 session_id ctx now with
    | (true, st3) => (none, st3)
    | (false, st3) => (some s1, st3)

/-- `SessionService.update_session_context` (lines 157-209).  If the session
id is not cached, the document is fetched (a failure or a missing document
aborts with `None`) and `get_session` is invoked on the document's owner to
load it (its `ValueError`s are swallowed by the outer catch); then the cached
copy is mutated and persisted by `update_ctx_apply`. -/
def update_session_context (st : FS) (session_id : String)
    (context_update : List (String × Val)) (now : Nat) :
    Option UserSession × FS :=
  let load : Bool × FS :=
    match keyLookup st.active_sessions session_id with
    | some _ => (false, st)
    | none =>
      match takeFlag st with
      | (true, st1) => (true, st1)
      | (false, st1) =>
        match keyLookup st1.sessions session_id with
        | none => (true, st1)
        | some d =>
          match get_session st1 d.user_id now with
          | (.ok _, st2) => (false, st2)
          | (.error _, st2) => (true, st2)
  match load with
  | (true, st1) => (none, st1)
  | (false, st1) => update_ctx_apply st1 session_id context_update now

/-- `SessionService.clear_session` (lines 352-399).  The resolved session'
messages are emptied in memory, then the full record is written back with
`last_active` stamped `now` in the written dict only — the cached session's
`last_active` is left as it was; a failing write is caught and the call still
reports success. -/
def clear_session (st : FS) (user_id : String) (now : Nat) :
    SessionResponse × FS :=
  if user_id = "" then
    (⟨"error", "", some "User ID is required"⟩, st)
  else
    match get_session st user_id now with
    | (.error _, st1) =>
      (⟨"error", "", some "Error clearing session"⟩, st1)
    | (.ok s, st1) =>
      let s1 := { s with messages := [] }
      let st2 := { st1 with active_sessions := dictInsert s.session_id s1 st1.active_sessions }
      match takeFlag st2 with
      | (true, st3) =>
        (⟨"success", s.session_id, some "Session history cleared successfully"⟩, st3)
      | (false, st3) =>
        let d1 := { s1 with last_active := now }
        (⟨"success", s.session_id, some "Session history cleared successfully"⟩,
         { st3 with sessions := dictInsert s.session_id d1 st3.sessions })

/-- `SessionService.get_all_sessions_for_user` (lines 440-465): validation,
user-existence check (skipped for the anonymous sentinel), then a full query
of the user's session document ids; every failure path yields `[]`. -/
def get_all_sessions_for_user (st : FS) (user_id : String) : List String × FS :=
  if user_id = "" then ([], st)
  else
    let va : Bool × FS :=
      if user_id ≠ "anonymous" then
        match user_exists st user_id with
        | (ex, st1) => (!ex, st1)
      else (false, st)
    match va with
    | (true, st1) => ([], st1)
    | (false, st1) =>
      match takeFlag st1 with
      | (true, st2) => ([], st2)
      | (false, st2) =>
        ((st2.sessions.filter (fun p => p.2.user_id = user_id)).map Prod.fst, st2)

instance {α β : Type} [DecidableEq α] [DecidableEq β] : DecidableEq (Except α β) :=
  fun a b =>
  match a, b with
  | .ok x, .ok y =>
    if h : x = y then .isTrue (by rw [h]) else .isFalse (by intro hc; cases hc; exact h rfl)
  | .error x, .error y =>
    if h : x = y then .isTrue (by rw [h]) else .isFalse (by intro hc; cases hc; exact h rfl)
  | .ok _, .error _ => .isFalse (by intro hc; cases hc)
  | .error _, .ok _ => .isFalse (by intro hc; cases hc)

/-! ### Dictionary lemmas -/

theorem keyLookup_dictInsert_self {α : Type} (k : String) (v : α)
    (d : List (String × α)) : keyLookup (dictInsert k v d) k = some v := by
  induction d with
  | nil => simp [dictInsert, keyLookup]
  | cons p d ih =>
    by_cases hk : p.1 = k
    · simp [dictInsert, keyLookup, hk]
    · simp [dictInsert, keyLookup, hk, ih]

theorem keyLookup_dictInsert_ne {α : Type} (k k' : String) (v : α)
    (d : List (String × α)) (h : k' ≠ k) :
    keyLookup (dictInsert k v d) k' = keyLookup d k' := by
  induction d with
  | nil => simp [dictInsert, keyLookup, Ne.symm h]
  | cons p d ih =>
    obtain ⟨a, b⟩ := p
    by_cases hk : a = k
    · subst hk
      simp [dictInsert, keyLookup, Ne.symm h]
    · by_cases hk' : a = k'
      · simp [dictInsert, keyLookup, hk, hk', h]
      · simp [dictInsert, keyLookup, hk, hk', ih]

theorem mem_dictInsert {α : Type} (k : String) (v : α) (d : List (String × α))
    (p : String × α) (h : p ∈ dictInsert k v d) : p = (k, v) ∨ p ∈ d := by
  induction d with
  | nil => simpa [dictInsert] using h
  | cons q d ih =>
    by_cases hk : q.1 = k
    · simp only [dictInsert, if_pos hk, List.mem_cons] at h
      rcases h with h | h
      · exact .inl h
      · exact .inr (List.mem_cons_of_mem _ h)
    · simp only [dictInsert, if_neg hk, List.mem_cons] at h
      rcases h with h | h
      · exact .inr (h ▸ List.mem_cons_self _ _)
      · rcases ih h with h' | h'
        · exact .inl h'
        · exact .inr (List.mem_cons_of_mem _ h')

theorem keyLookup_eq_none_iff {α : Type} (d : List (String × α)) (k : String) :
    keyLookup d k = none ↔ ∀ p ∈ d, p.1 ≠ k := by
  induction d with
  | nil => simp [keyLookup]
  | cons p d ih =>
    by_cases hk : p.1 = k
    · simp [keyLookup, hk]
    · simp [keyLookup, hk, ih]

theorem keyLookup_mem {α : Type} (d : List (String × α)) (k : String) (v : α)
    (h : keyLookup d k = some v) : (k, v) ∈ d := by
  induction d with
  | nil => simp [keyLookup] at h
  | cons p d ih =>
    obtain ⟨a, b⟩ := p
    by_cases hk : a = k
    · simp only [keyLookup, if_pos hk] at h
      cases h
      subst hk
      exact List.mem_cons_self _ _
    · simp only [keyLookup, if_neg hk] at h
      exact List.mem_cons_of_mem _ (ih h)

theorem keyLookup_of_mem_nodup {α : Type} (d : List (String × α)) (k : String)
    (v : α) (hmem : (k, v) ∈ d) (hnd : (d.map Prod.fst).Nodup) :
    keyLookup d k = some v := by
  induction d with
  | nil => simp at hmem
  | cons p d ih =>
    simp only [List.map_cons, List.nodup_cons] at hnd
    rcases List.mem_cons.mp hmem with h | h
    · subst h; simp [keyLookup]
    · have hk : p.1 ≠ k := by
        intro hk
        exact hnd.1 (hk ▸ (List.mem_map.mpr ⟨(k, v), h, rfl⟩))
      simp [keyLookup, hk, ih h hnd.2]

theorem dictInsert_keys_nodup {α : Type} (k : String) (v : α)
    (d : List (String × α)) (hnd : (d.map Prod.fst).Nodup) :
    ((dictInsert k v d).map Prod.fst).Nodup := by
  induction d with
  | nil => simp [dictInsert]
  | cons p d ih =>
    simp only [List.map_cons, List.nodup_cons] at hnd
    by_cases hk : p.1 = k
    · subst hk
      simpa [dictInsert, List.nodup_cons] using hnd
    · simp only [dictInsert, if_neg hk, List.map_cons, List.nodup_cons]
      refine ⟨fun hc => ?_, ih hnd.2⟩
      rcases List.mem_map.mp hc with ⟨q, hq, hq1⟩
      rcases mem_dictInsert _ _ _ _ hq with h' | h'
      · exact hk (by rw [h'] at hq1; exact hq1.symm)
      · exact hnd.1 (hq1 ▸ List.mem_map.mpr ⟨q, h', rfl⟩)

theorem cacheFindUser_eq_none_iff (d : List (String × UserSession)) (u : String) :
    cacheFindUser d u = none ↔ ∀ p ∈ d, p.2.user_id ≠ u := by
  induction d with
  | nil => simp [cacheFindUser]
  | cons p d ih =>
    by_cases hu : p.2.user_id = u
    · simp [cacheFindUser, hu]
    · simp [cacheFindUser, hu, ih]

theorem cacheFindUser_some (d : List (String × UserSession)) (u : String)
    (s : UserSession) (h : cacheFindUser d u = some s) :
    s.user_id = u ∧ ∃ k, (k, s) ∈ d := by
  induction d with
  | nil => simp [cacheFindUser] at h
  | cons p d ih =>
    by_cases hu : p.2.user_id = u
    · simp only [cacheFindUser, if_pos hu] at h
      cases h
      exact ⟨hu, p.1, by simp⟩
    · simp only [cacheFindUser, if_neg hu] at h
      rcases ih h with ⟨h1, k, h2⟩
      exact ⟨h1, k, List.mem_cons_of_mem _ h2⟩

theorem cacheFindUser_dictInsert_of_none (d : List (String × UserSession))
    (u k : String) (v : UserSession) (hnone : cacheFindUser d u = none)
    (hv : v.user_id = u) : cacheFindUser (dictInsert k v d) u = some v := by
  induction d with
  | nil => simp [dictInsert, cacheFindUser, hv]
  | cons p d ih =>
    have hp : p.2.user_id ≠ u := by
      intro hc
      simp [cacheFindUser, hc] at hnone
    have htl : cacheFindUser d u = none := by
      simpa [cacheFindUser, hp] using hnone
    by_cases hk : p.1 = k
    · simp [dictInsert, cacheFindUser, hk, hv]
    · simp [dictInsert, cacheFindUser, hk, hp, ih htl]

theorem cacheFindUser_dictInsert_first (d : List (String × UserSession))
    (u k : String) (s0 v : UserSession) (hfind : cacheFindUser d u = some s0)
    (hk0 : s0.session_id = k) (hkeys : ∀ p ∈ d, p.1 = p.2.session_id)
    (hv : v.user_id = u) : cacheFindUser (dictInsert k v d) u = some v := by
  induction d with
  | nil => simp [cacheFindUser] at hfind
  | cons p d ih =>
    by_cases hu : p.2.user_id = u
    · simp only [cacheFindUser, if_pos hu] at hfind
      cases hfind
      have hp1 : p.1 = k := by rw [hkeys p (List.mem_cons_self _ _), hk0]
      simp [dictInsert, cacheFindUser, hp1, hv]
    · simp only [cacheFindUser, if_neg hu] at hfind
      by_cases hk : p.1 = k
      · simp [dictInsert, cacheFindUser, hk, hv]
      · have := ih hfind (fun q hq => hkeys q (List.mem_cons_of_mem _ hq))
        simp [dictInsert, cacheFindUser, hk, hu, this]

theorem queryByUser_some (d : List (String × UserSession)) (u : String)
    (p : String × UserSession) (h : queryByUser d u = some p) :
    p ∈ d ∧ p.2.user_id = u := by
  induction d with
  | nil => simp [queryByUser] at h
  | cons q d ih =>
    by_cases hu : q.2.user_id = u
    · simp only [queryByUser, if_pos hu] at h
      cases h
      exact ⟨List.mem_cons_self _ _, hu⟩
    · simp only [queryByUser, if_neg hu] at h
      rcases ih h with ⟨h1, h2⟩
      exact ⟨List.mem_cons_of_mem _ h1, h2⟩

theorem queryByUser_eq_none_iff (d : List (String × UserSession)) (u : String) :
    queryByUser d u = none ↔ ∀ p ∈ d, p.2.user_id ≠ u := by
  induction d with
  | nil => simp [queryByUser]
  | cons p d ih =>
    by_cases hu : p.2.user_id = u
    · simp [queryByUser, hu]
    · simp [queryByUser, hu, ih]

/-! ### State-shape helpers -/

/-- Every cache entry is keyed by its session's id (always true for states the
service builds: each insertion uses the session's own id as the key). -/
abbrev CacheKeysOk (d : List (String × UserSession)) : Prop :=
  ∀ p ∈ d, p.1 = p.2.session_id

theorem takeFlag_nil (st : FS) (h : st.oracle = []) : takeFlag st = (false, st) := by
  simp [takeFlag, h]

theorem takeFlag_frame (st : FS) :
    (takeFlag st).2.users = st.users ∧ (takeFlag st).2.sessions = st.sessions ∧
    (takeFlag st).2.active_sessions = st.active_sessions ∧
    (takeFlag st).2.next_uuid = st.next_uuid := by
  rcases st with ⟨us, ss, ac, n, or⟩
  cases or <;> simp [takeFlag]

theorem user_exists_noFail (st : FS) (u : String) (h : st.oracle = [])
    (hu : u ≠ "") : user_exists st u = (st.users.contains u, st) := by
  simp [user_exists, takeFlag_nil st h, hu]

theorem create_session_noFail (st : FS) (u : String) (t : Nat)
    (h : st.oracle = []) :
    create_session st u t =
      (⟨genId st.next_uuid, u, t, t, [], "english", []⟩,
       { st with
          next_uuid := st.next_uuid + 1,
          sessions := dictInsert (genId st.next_uuid)
            ⟨genId st.next_uuid, u, t, t, [], "english", []⟩ st.sessions,
          active_sessions := dictInsert (genId st.next_uuid)
            ⟨genId st.next_uuid, u, t, t, [], "english", []⟩ st.active_sessions }) := by
  simp [create_session, takeFlag, h]

/-- Core facts about a successful `get_session` with no store failures: the
returned session is owned by the caller, validation facts, the frame on
`users`/`oracle`, and — the get-or-create heart — the returned session is now
the first cache entry the user-scan finds. -/
theorem get_session_noFail_core (st : FS) (u : String) (t : Nat)
    (r : UserSession) (st1 : FS) (ho : st.oracle = [])
    (h : get_session st u t = (.ok r, st1)) :
    r.user_id = u ∧ u ≠ "" ∧ (u ≠ "anonymous" → st.users.contains u = true) ∧
    st1.users = st.users ∧ st1.oracle = [] ∧
    cacheFindUser st1.active_sessions u = some r ∧
    (CacheKeysOk st.active_sessions → CacheKeysOk st1.active_sessions) := by
  by_cases hu : u = ""
  · simp [get_session, get_session_lookup, hu] at h
  have hbody :
      get_session_lookup st u t = (.ok r, st1) ∧
      (u ≠ "anonymous" → st.users.contains u = true) := by
    by_cases ha : u = "anonymous"
    · subst ha
      simp only [get_session, get_session_lookup, if_neg hu] at h
      refine ⟨?_, by intro hc; exact absurd rfl hc⟩
      simpa using h
    · simp only [get_session, get_session_lookup, if_neg hu, if_pos (by exact ha : u ≠ "anonymous"),
        user_exists_noFail st u ho hu] at h
      rcases hcon : st.users.contains u with _ | _
      · rw [hcon] at h
        simp at h
      · rw [hcon] at h
        exact ⟨by simpa using h, fun _ => rfl⟩
  obtain ⟨hb, hcontains⟩ := hbody
  rcases hc : cacheFindUser st.active_sessions u with _ | s
  · rcases hq : queryByUser st.sessions u with _ | ⟨sid, d⟩
    · simp only [get_session_lookup, hc, takeFlag_nil st ho, hq,
        create_session_noFail st u t ho, Prod.mk.injEq, Except.ok.injEq] at hb
      obtain ⟨hr, hst⟩ := hb
      subst hr
      subst hst
      refine ⟨rfl, hu, hcontains, rfl, ho, ?_, ?_⟩
      · exact cacheFindUser_dictInsert_of_none _ _ _ _ hc rfl
      · intro hk p hp
        rcases mem_dictInsert _ _ _ _ hp with h' | h'
        · rw [h']
        · exact hk p h'
    · simp only [get_session_lookup, hc, takeFlag_nil st ho, hq, Prod.mk.injEq,
        Except.ok.injEq] at hb
      obtain ⟨hr, hst⟩ := hb
      subst hr
      subst hst
      obtain ⟨hmem, hqu⟩ := queryByUser_some _ _ _ hq
      refine ⟨hqu, hu, hcontains, rfl, ho, ?_, ?_⟩
      · exact cacheFindUser_dictInsert_of_none _ _ _ _ hc hqu
      · intro hk p hp
        rcases mem_dictInsert _ _ _ _ hp with h' | h'
        · rw [h']
          rfl
        · exact hk p h'
  · simp only [get_session_lookup, hc, Prod.mk.injEq, Except.ok.injEq] at hb
    obtain ⟨hr, hst⟩ := hb
    subst hr
    subst hst
    obtain ⟨hru, _⟩ := cacheFindUser_some _ _ _ hc
    exact ⟨hru, hu, hcontains, rfl, ho, hc, fun hk => hk⟩

/-- A second `get_session` right after a successful one (no store failures)
returns the very same session and leaves the state untouched: the session is
found by the in-memory scan. -/
theorem get_session_again (st : FS) (u : String) (t t' : Nat)
    (r : UserSession) (st1 : FS) (ho : st.oracle = [])
    (h : get_session st u t = (.ok r, st1)) :
    get_session st1 u t' = (.ok r, st1) := by
  obtain ⟨hru, hu, hcontains, husers, ho1, hfind, _⟩ :=
    get_session_noFail_core st u t r st1 ho h
  by_cases ha : u = "anonymous"
  · subst ha
    simp [get_session, get_session_lookup, hu, hfind]
  · have hmem : u ∈ st.users := by
      have := hcontains ha
      simpa using this
    simp [get_session, get_session_lookup, hu, ha, user_exists_noFail st1 u ho1 hu, husers,
      hmem, hfind]

theorem user_exists_frame (st : FS) (u : String) :
    (user_exists st u).2.users = st.users ∧
    (user_exists st u).2.sessions = st.sessions ∧
    (user_exists st u).2.active_sessions = st.active_sessions ∧
    (user_exists st u).2.next_uuid = st.next_uuid := by
  unfold user_exists
  by_cases hu : u = ""
  · simp [hu]
  · rcases htf : takeFlag st with ⟨f, st1⟩
    have hf := takeFlag_frame st
    rw [htf] at hf
    have h1 : st1.users = st.users := hf.1
    have h2 : st1.sessions = st.sessions := hf.2.1
    have h3 : st1.active_sessions = st.active_sessions := hf.2.2.1
    have h4 : st1.next_uuid = st.next_uuid := hf.2.2.2
    cases f <;> simp [hu, htf, h1, h2, h3, h4]

theorem user_exists_false (st : FS) (u : String) (hnm : u ∉ st.users) :
    (user_exists st u).1 = false := by
  unfold user_exists
  by_cases hu : u = ""
  · simp [hu]
  · rcases htf : takeFlag st with ⟨f, st1⟩
    have hf := takeFlag_frame st
    rw [htf] at hf
    have h1 : st1.users = st.users := hf.1
    cases f <;> simp [hu, htf, h1, hnm]

theorem get_session_anonymous_ok (st : FS) (t : Nat) :
    ∃ s, (get_session st "anonymous" t).1 = .ok s := by
  rcases hc : cacheFindUser st.active_sessions "anonymous" with _ | s
  · rcases htf : takeFlag st with ⟨f, st2⟩
    cases f
    · rcases hq : queryByUser st2.sessions "anonymous" with _ | p
      · exact ⟨(create_session st2 "anonymous" t).1, by simp [get_session, get_session_lookup, hc, htf, hq]⟩
      · obtain ⟨sid, d⟩ := p
        exact ⟨hydrate sid d, by simp [get_session, get_session_lookup, hc, htf, hq]⟩
    · exact ⟨(create_session st2 "anonymous" t).1, by simp [get_session, get_session_lookup, hc, htf]⟩
  · exact ⟨s, by simp [get_session, get_session_lookup, hc]⟩

/-- Whatever the state, the user id and the store-failure pattern,
`get_session` either succeeds or fails with a `ValueError` from its two
validation checks: every store failure inside the `try` is converted into the
`create_session` fallback (which itself falls back to a memory-only session),
never propagated. -/
theorem get_session_result_shape (st : FS) (u : String) (t : Nat) :
    (∃ s, (get_session st u t).1 = .ok s) ∨
    (∃ m, (get_session st u t).1 = .error (.valueError m)) := by
  by_cases hu : u = ""
  · right
    exact ⟨"User ID cannot be empty", by simp [get_session, get_session_lookup, hu]⟩
  by_cases ha : u = "anonymous"
  · subst ha
    exact .inl (get_session_anonymous_ok st t)
  · rcases hue : user_exists st u with ⟨ex, st1⟩
    cases ex
    · right
      exact ⟨"User with ID " ++ u ++ " does not exist",
        by simp [get_session, get_session_lookup, hu, ha, hue]⟩
    · left
      rcases hc : cacheFindUser st1.active_sessions u with _ | s
      · rcases htf : takeFlag st1 with ⟨f, st2⟩
        cases f
        · rcases hq : queryByUser st2.sessions u with _ | p
          · exact ⟨(create_session st2 u t).1,
              by simp [get_session, get_session_lookup, hu, ha, hue, hc, htf, hq]⟩
          · obtain ⟨sid, d⟩ := p
            exact ⟨hydrate sid d, by simp [get_session, get_session_lookup, hu, ha, hue, hc, htf, hq]⟩
        · exact ⟨(create_session st2 u t).1,
            by simp [get_session, get_session_lookup, hu, ha, hue, hc, htf]⟩
      · exact ⟨s, by simp [get_session, get_session_lookup, hu, ha, hue, hc]⟩

/-! ### Claim theorems (first batch) -/

/-- C3: for a valid existing user with no store failures, two successive
`get_or_create_session` calls return sessions with the same session id — the
second call finds the session returned by the first (in the in-memory scan)
instead of creating a new one. -/
theorem get_or_create_twice_same_session (st : FS) (u : String) (t t' : Nat)
    (r1 r2 : UserSession) (st1 st2 : FS) (ho : st.oracle = [])
    (h1 : get_session st u t = (.ok r1, st1))
    (h2 : get_session st1 u t' = (.ok r2, st2)) :
    r2.session_id = r1.session_id := by
  have hagain := get_session_again st u t t' r1 st1 ho h1
  rw [hagain] at h2
  simp only [Prod.mk.injEq, Except.ok.injEq] at h2
  rw [← h2.1]

/-- Witness for C3: a fresh state with user `"u1"`, two calls, same id. -/
theorem get_or_create_twice_same_session_witness :
    UserSession.session_id ⟨genId 0, "u1", 0, 0, [], "english", []⟩ =
      UserSession.session_id ⟨genId 0, "u1", 0, 0, [], "english", []⟩ :=
  get_or_create_twice_same_session ⟨["u1"], [], [], 0, []⟩ "u1" 0 1
    ⟨genId 0, "u1", 0, 0, [], "english", []⟩
    ⟨genId 0, "u1", 0, 0, [], "english", []⟩
    ⟨["u1"], [(genId 0, ⟨genId 0, "u1", 0, 0, [], "english", []⟩)],
      [(genId 0, ⟨genId 0, "u1", 0, 0, [], "english", []⟩)], 1, []⟩
    ⟨["u1"], [(genId 0, ⟨genId 0, "u1", 0, 0, [], "english", []⟩)],
      [(genId 0, ⟨genId 0, "u1", 0, 0, [], "english", []⟩)], 1, []⟩
    rfl (by decide) (by decide)

/-- C4: `get_or_create_session` fails with a `ValueError` for an empty user id
or one missing from the user directory (no session is created in the cache or
the store), while the anonymous sentinel bypasses the check and always gets a
session. -/
theorem get_or_create_validates_user (st : FS) (u : String) (t : Nat) :
    ((u = "" ∨ (u ≠ "anonymous" ∧ u ∉ st.users)) →
      (∃ m, (get_session st u t).1 = .error (.valueError m)) ∧
      (get_session st u t).2.active_sessions = st.active_sessions ∧
      (get_session st u t).2.sessions = st.sessions) ∧
    (∃ s, (get_session st "anonymous" t).1 = .ok s) := by
  refine ⟨fun hbad => ?_, get_session_anonymous_ok st t⟩
  by_cases hu : u = ""
  · exact ⟨⟨"User ID cannot be empty", by simp [get_session, get_session_lookup, hu]⟩,
      by simp [get_session, get_session_lookup, hu], by simp [get_session, get_session_lookup, hu]⟩
  · rcases hbad with hbad | ⟨ha, hnm⟩
    · exact absurd hbad hu
    · rcases hue : user_exists st u with ⟨ex, st1⟩
      have hex : ex = false := by
        have := user_exists_false st u hnm
        rw [hue] at this
        exact this
      subst hex
      have hf := user_exists_frame st u
      rw [hue] at hf
      have h2 : st1.sessions = st.sessions := hf.2.1
      have h3 : st1.active_sessions = st.active_sessions := hf.2.2.1
      refine ⟨⟨"User with ID " ++ u ++ " does not exist",
        by simp [get_session, get_session_lookup, hu, ha, hue]⟩, ?_, ?_⟩
      · simp [get_session, get_session_lookup, hu, ha, hue, h3]
      · simp [get_session, get_session_lookup, hu, ha, hue, h2]

/-- Witness for C4: user `"ghost"` is rejected, `"anonymous"` is served. -/
theorem get_or_create_validates_user_witness :
    (∃ m, (get_session ⟨["u1"], [], [], 0, []⟩ "ghost" 0).1 =
      .error (.valueError m)) ∧
    (∃ s, (get_session ⟨["u1"], [], [], 0, []⟩ "anonymous" 0).1 = .ok s) :=
  ⟨((get_or_create_validates_user ⟨["u1"], [], [], 0, []⟩ "ghost" 0).1
      (Or.inr ⟨by decide, by decide⟩)).1,
   (get_or_create_validates_user ⟨["u1"], [], [], 0, []⟩ "ghost" 0).2⟩

/-- C5: no backing-store exception escapes a public operation.  In this
translation, result types already record which exceptions a method can raise:
`get_user_history`, `get_session_by_id`, `update_session_context`,
`clear_session` and `get_all_sessions_for_user` have total (exception-free)
result types, mirroring their top-level catch-alls in the source.  The two
operations with `Except`-typed results are covered here: `get_session` can
only raise its validation `ValueError`s (store failures are converted into
the create-session fallback), and `add_message` raises only the `NameError`
of its unbound names — never a store error. -/
theorem no_store_exception_escapes (st : FS) (u : String) (t : Nat)
    (sid : String) (m : UserMessage) :
    ((∃ s, (get_session st u t).1 = .ok s) ∨
     (∃ msg, (get_session st u t).1 = .error (.valueError msg))) ∧
    (add_message st sid m).1 = .error .nameError :=
  ⟨get_session_result_shape st u t, rfl⟩

/-- C10: with the session resolved, `get_history` with `limit = 0` returns
the whole message list (the slice `messages[-0:]` is `messages[0:]`), and
with `limit ≥ 1` the last `min(limit, length)` messages in order. -/
theorem get_history_limit_semantics (st : FS) (u : String) (t : Nat)
    (limit : Nat) (s : UserSession) (st1 : FS)
    (h : get_session st u t = (.ok s, st1)) :
    (s.messages ≠ [] → (get_user_history st u 0 t).1 = s.messages) ∧
    (1 ≤ limit →
      (get_user_history st u limit t).1 =
        s.messages.drop (s.messages.length - limit)) := by
  constructor
  · intro _
    unfold get_user_history
    rw [h]
    by_cases hl : s.messages.length > 0
    · simp [hl, pySliceLast]
    · simp [hl]
  · intro hlim
    unfold get_user_history
    rw [h]
    by_cases hl : s.messages.length > limit
    · have hne : limit ≠ 0 := by omega
      simp [hl, pySliceLast, hne]
    · have hz : s.messages.length - limit = 0 := by omega
      simp [hl, hz]

/-- Witness for C10: a cached session with two messages; `limit = 0` yields
both, `limit = 1` yields the last one. -/
theorem get_history_limit_semantics_witness :
    (get_user_history ⟨["u1"], [],
        [("s1", ⟨"s1", "u1", 0, 0,
          [⟨1, "hello", "user", []⟩, ⟨2, "reply", "assistant", []⟩],
          "english", []⟩)], 0, []⟩ "u1" 0 0).1 =
      [⟨1, "hello", "user", []⟩, ⟨2, "reply", "assistant", []⟩] ∧
    (get_user_history ⟨["u1"], [],
        [("s1", ⟨"s1", "u1", 0, 0,
          [⟨1, "hello", "user", []⟩, ⟨2, "reply", "assistant", []⟩],
          "english", []⟩)], 0, []⟩ "u1" 1 0).1 =
      [⟨2, "reply", "assistant", []⟩] :=
  ⟨(get_history_limit_semantics ⟨["u1"], [],
      [("s1", ⟨"s1", "u1", 0, 0,
        [⟨1, "hello", "user", []⟩, ⟨2, "reply", "assistant", []⟩],
        "english", []⟩)], 0, []⟩ "u1" 0 0
      ⟨"s1", "u1", 0, 0,
        [⟨1, "hello", "user", []⟩, ⟨2, "reply", "assistant", []⟩],
        "english", []⟩
      ⟨["u1"], [],
        [("s1", ⟨"s1", "u1", 0, 0,
          [⟨1, "hello", "user", []⟩, ⟨2, "reply", "assistant", []⟩],
          "english", []⟩)], 0, []⟩ (by decide)).1 (by decide),
   (get_history_limit_semantics ⟨["u1"], [],
      [("s1", ⟨"s1", "u1", 0, 0,
        [⟨1, "hello", "user", []⟩, ⟨2, "reply", "assistant", []⟩],
        "english", []⟩)], 0, []⟩ "u1" 0 1
      ⟨"s1", "u1", 0, 0,
        [⟨1, "hello", "user", []⟩, ⟨2, "reply", "assistant", []⟩],
        "english", []⟩
      ⟨["u1"], [],
        [("s1", ⟨"s1", "u1", 0, 0,
          [⟨1, "hello", "user", []⟩, ⟨2, "reply", "assistant", []⟩],
          "english", []⟩)], 0, []⟩ (by decide)).2 (by decide)⟩

/-- C2: `get_session_by_id` never hands a session to a non-owner: if every
copy of the session (cache and store) is owned by `user_A`, a caller
presenting `user_B ≠ user_A` gets `None`; and any session it does return is
owned by the requesting user. -/
theorem get_session_by_id_enforces_ownership (st : FS) (sid uA uB : String)
    (hAB : uA ≠ uB)
    (hcache : ∀ s, keyLookup st.active_sessions sid = some s → s.user_id = uA)
    (hstore : ∀ d, keyLookup st.sessions sid = some d → d.user_id = uA) :
    (get_session_by_id st sid uB).1 = none ∧
    (∀ st2 sid2 u2 s, (get_session_by_id st2 sid2 u2).1 = some s →
      s.user_id = u2) := by
  constructor
  · by_cases hz : sid = "" ∨ uB = ""
    · simp [get_session_by_id, hz]
    · rcases hkc : keyLookup st.active_sessions sid with _ | s
      · rcases htf : takeFlag st with ⟨f, st1⟩
        have hfr := takeFlag_frame st
        rw [htf] at hfr
        cases f
        · rcases hks : keyLookup st1.sessions sid with _ | d
          · simp [get_session_by_id, hz, hkc, htf, hks]
          · have hdA : d.user_id = uA := by
              apply hstore
              rw [← hfr.2.1]
              exact hks
            have : d.user_id ≠ uB := by rw [hdA]; exact hAB
            simp [get_session_by_id, hz, hkc, htf, hks, this]
        · simp [get_session_by_id, hz, hkc, htf]
      · have hsA : s.user_id = uA := hcache s hkc
        have : s.user_id ≠ uB := by rw [hsA]; exact hAB
        simp [get_session_by_id, hz, hkc, this]
  · intro st2 sid2 u2 s h
    by_cases hz : sid2 = "" ∨ u2 = ""
    · simp [get_session_by_id, hz] at h
    · rcases hkc : keyLookup st2.active_sessions sid2 with _ | s0
      · rcases htf : takeFlag st2 with ⟨f, st3⟩
        cases f
        · rcases hks : keyLookup st3.sessions sid2 with _ | d
          · simp [get_session_by_id, hz, hkc, htf, hks] at h
          · by_cases hd : d.user_id ≠ u2
            · simp [get_session_by_id, hz, hkc, htf, hks, hd] at h
            · push_neg at hd
              simp [get_session_by_id, hz, hkc, htf, hks, hd] at h
              rw [← h]
              exact hd
        · simp [get_session_by_id, hz, hkc, htf] at h
      · by_cases hs0 : s0.user_id = u2
        · simp [get_session_by_id, hz, hkc, hs0] at h
          rw [← h]
          exact hs0
        · simp [get_session_by_id, hz, hkc, hs0] at h

/-- Witness for C2: a stored session of `"alice"` is not served to `"bob"`. -/
theorem get_session_by_id_enforces_ownership_witness :
    (get_session_by_id ⟨[], [("s1", ⟨"s1", "alice", 0, 0, [], "english", []⟩)],
      [], 0, []⟩ "s1" "bob").1 = none :=
  (get_session_by_id_enforces_ownership
    ⟨[], [("s1", ⟨"s1", "alice", 0, 0, [], "english", []⟩)], [], 0, []⟩
    "s1" "alice" "bob" (by decide)
    (by intro s h; simp [keyLookup] at h)
    (by intro d h; simp [keyLookup] at h; rw [← h])).1

/-- A cache-hit `get_session` with no store failures: state untouched. -/
theorem get_session_cachehit (st : FS) (u : String) (t : Nat) (s : UserSession)
    (ho : st.oracle = []) (hu : u ≠ "")
    (hval : u = "anonymous" ∨ u ∈ st.users)
    (hfind : cacheFindUser st.active_sessions u = some s) :
    get_session st u t = (.ok s, st) := by
  by_cases ha : u = "anonymous"
  · subst ha
    simp [get_session, get_session_lookup, hu, hfind]
  · rcases hval with ha' | hmem
    · exact absurd ha' ha
    · simp [get_session, get_session_lookup, hu, ha, user_exists_noFail st u ho hu, hmem, hfind]

/-- `clear_session` with no store failures, given what its internal
`get_session` resolves to: the cached session keeps all fields but loses its
messages (its `last_active` included — the code stamps `now` only into the
written dict), and the stored record is overwritten with the emptied message
list and `last_active = now`. -/
theorem clear_session_noFail (st0 : FS) (u : String) (t1 : Nat)
    (s0 : UserSession) (hu : u ≠ "") (ho : st0.oracle = [])
    (hgs : get_session st0 u t1 = (.ok s0, st0)) :
    clear_session st0 u t1 =
      (⟨"success", s0.session_id, some "Session history cleared successfully"⟩,
       { st0 with
          active_sessions :=
            dictInsert s0.session_id { s0 with messages := [] } st0.active_sessions,
          sessions :=
            dictInsert s0.session_id { s0 with messages := [], last_active := t1 }
              st0.sessions }) := by
  unfold clear_session
  rw [if_neg hu, hgs]
  simp [takeFlag, ho]

/-- C1 (code bug): `add_message` can never perform the append the spec
describes — its body refers to parameters its signature does not declare, so
every call dies with `NameError` before touching the session: it never
returns a session id, never changes any state, and a following
`get_history` sees exactly what it saw before the call. -/
theorem append_message_always_raises (st : FS) (sid : String)
    (m : UserMessage) (u : String) (limit t : Nat) :
    (add_message st sid m).1 = .error .nameError ∧
    (add_message st sid m).2 = st ∧
    get_user_history (add_message st sid m).2 u limit t =
      get_user_history st u limit t :=
  ⟨rfl, rfl, rfl⟩

/-- C7: after a successful `clear_session` (no store failures), the history
is empty for every limit, yet `get_or_create_session` still returns the same
session id — the record survives, only its messages are gone. -/
theorem clear_session_empties_history_keeps_record (st : FS) (u : String)
    (t0 t1 t2 t3 lim : Nat) (s0 : UserSession) (st0 : FS)
    (resp : SessionResponse) (st1 : FS)
    (ho : st.oracle = []) (hck : CacheKeysOk st.active_sessions)
    (h0 : get_session st u t0 = (.ok s0, st0))
    (hclear : clear_session st0 u t1 = (resp, st1)) :
    resp.status = "success" ∧
    (get_user_history st1 u lim t2).1 = [] ∧
    (∃ s2, (get_session st1 u t3).1 = .ok s2 ∧
      s2.session_id = s0.session_id) := by
  obtain ⟨hru, hu, hcontains, husers, ho0, hfind0, hckpres⟩ :=
    get_session_noFail_core st u t0 s0 st0 ho h0
  have hck0 : CacheKeysOk st0.active_sessions := hckpres hck
  have hagain := get_session_again st u t0 t1 s0 st0 ho h0
  rw [clear_session_noFail st0 u t1 s0 hu ho0 hagain] at hclear
  simp only [Prod.mk.injEq] at hclear
  obtain ⟨hresp, hst1⟩ := hclear
  subst hresp
  subst hst1
  have hval : u = "anonymous" ∨ u ∈ st.users := by
    by_cases ha : u = "anonymous"
    · exact .inl ha
    · right
      simpa using hcontains ha
  have hfind1 :
      cacheFindUser
        (dictInsert s0.session_id { s0 with messages := [] } st0.active_sessions) u =
        some { s0 with messages := [] } :=
    cacheFindUser_dictInsert_first st0.active_sessions u s0.session_id s0
      { s0 with messages := [] } hfind0 rfl hck0 hru
  have hgs2 : ∀ tx : Nat,
      get_session
        { st0 with
          active_sessions :=
            dictInsert s0.session_id { s0 with messages := [] } st0.active_sessions,
          sessions :=
            dictInsert s0.session_id { s0 with messages := [], last_active := t1 }
              st0.sessions } u tx =
      (.ok { s0 with messages := [] },
       { st0 with
          active_sessions :=
            dictInsert s0.session_id { s0 with messages := [] } st0.active_sessions,
          sessions :=
            dictInsert s0.session_id { s0 with messages := [], last_active := t1 }
              st0.sessions }) := by
    intro tx
    refine get_session_cachehit _ u tx _ ?_ hu ?_ hfind1
    · exact ho0
    · rcases hval with h' | h'
      · exact .inl h'
      · right
        show u ∈ st0.users
        rw [husers]
        exact h'
  refine ⟨rfl, ?_, ⟨{ s0 with messages := [] }, ?_, rfl⟩⟩
  · unfold get_user_history
    rw [hgs2 t2]
    simp
  · rw [hgs2 t3]

/-- C8: `clear_session` is frame-preserving: afterwards the cached session is
exactly the old one with its message list emptied (context, language
preference, ids, `created_at` — and even the cached `last_active` —
unchanged), and the stored record is the same with `last_active` re-stamped
to the call time. -/
theorem clear_session_frame (st : FS) (u : String) (t0 t1 : Nat)
    (s0 : UserSession) (st0 : FS) (resp : SessionResponse) (st1 : FS)
    (ho : st.oracle = [])
    (h0 : get_session st u t0 = (.ok s0, st0))
    (hclear : clear_session st0 u t1 = (resp, st1)) :
    keyLookup st1.active_sessions s0.session_id =
      some { s0 with messages := [] } ∧
    keyLookup st1.sessions s0.session_id =
      some { s0 with messages := [], last_active := t1 } := by
  obtain ⟨hru, hu, hcontains, husers, ho0, hfind0, hckpres⟩ :=
    get_session_noFail_core st u t0 s0 st0 ho h0
  have hagain := get_session_again st u t0 t1 s0 st0 ho h0
  rw [clear_session_noFail st0 u t1 s0 hu ho0 hagain] at hclear
  simp only [Prod.mk.injEq] at hclear
  obtain ⟨hresp, hst1⟩ := hclear
  subst hst1
  exact ⟨keyLookup_dictInsert_self _ _ _, keyLookup_dictInsert_self _ _ _⟩

/-- Counterexample to C6 as stated: a session that exists in both the cache
and the store, but the store patch fails — `update_context` returns `None`
(not-found) even though the session exists; the merge is nonetheless already
applied to the cached copy. -/
theorem update_context_not_found_despite_present :
    keyLookup (⟨["u1"],
      [("s1", ⟨"s1", "u1", 0, 0, [], "english", []⟩)],
      [("s1", ⟨"s1", "u1", 0, 0, [], "english", []⟩)], 0, [true]⟩ : FS).active_sessions
      "s1" = some ⟨"s1", "u1", 0, 0, [], "english", []⟩ ∧
    (update_session_context ⟨["u1"],
      [("s1", ⟨"s1", "u1", 0, 0, [], "english", []⟩)],
      [("s1", ⟨"s1", "u1", 0, 0, [], "english", []⟩)], 0, [true]⟩
      "s1" [("k", "v")] 5).1 = none ∧
    keyLookup (update_session_context ⟨["u1"],
      [("s1", ⟨"s1", "u1", 0, 0, [], "english", []⟩)],
      [("s1", ⟨"s1", "u1", 0, 0, [], "english", []⟩)], 0, [true]⟩
      "s1" [("k", "v")] 5).2.active_sessions "s1" =
      some ⟨"s1", "u1", 0, 5, [], "english", [("k", "v")]⟩ := by
  exact ⟨rfl, rfl, rfl⟩

/-- C6 (amended): `update_context` returns not-found when the session is
absent from both cache and store; when the session is cached, its store
record exists and no store failure occurs, it returns the session with the
update shallow-merged into the context and `last_active` bumped (and the
cache holds that merged session).  A failing store patch (or a cache-only
session with no store record) yields not-found even though the session
exists. -/
theorem update_context_amended (st : FS) (sid : String)
    (upd : List (String × Val)) (t : Nat) :
    (keyLookup st.active_sessions sid = none →
     keyLookup st.sessions sid = none →
     (update_session_context st sid upd t).1 = none) ∧
    (∀ s d, st.oracle = [] →
      keyLookup st.active_sessions sid = some s →
      keyLookup st.sessions sid = some d →
      (update_session_context st sid upd t).1 =
        some { s with context := dictMerge s.context upd, last_active := t } ∧
      keyLookup (update_session_context st sid upd t).2.active_sessions sid =
        some { s with context := dictMerge s.context upd, last_active := t }) := by
  constructor
  · intro hc hs
    rcases htf : takeFlag st with ⟨f, st1⟩
    have hfr := takeFlag_frame st
    rw [htf] at hfr
    have h2 : st1.sessions = st.sessions := hfr.2.1
    cases f
    · simp [update_session_context, hc, htf, h2, hs]
    · simp [update_session_context, hc, htf]
  · intro s d ho hc hs
    simp [update_session_context, update_ctx_apply, hc, fsUpdateDoc, takeFlag,
      ho, hs, keyLookup_dictInsert_self]

/-- Witness for C6 (amended): truly-absent gives `None`; present with a
healthy store gives the merged session. -/
theorem update_context_amended_witness :
    (update_session_context ⟨[], [], [], 0, []⟩ "s1" [("k", "v")] 5).1 = none ∧
    (update_session_context ⟨["u1"],
      [("s1", ⟨"s1", "u1", 0, 0, [], "english", []⟩)],
      [("s1", ⟨"s1", "u1", 0, 0, [], "english", []⟩)], 0, []⟩
      "s1" [("k", "v")] 5).1 =
      some ⟨"s1", "u1", 0, 5, [], "english", [("k", "v")]⟩ :=
  ⟨(update_context_amended ⟨[], [], [], 0, []⟩ "s1" [("k", "v")] 5).1
      (by decide) (by decide),
   ((update_context_amended ⟨["u1"],
      [("s1", ⟨"s1", "u1", 0, 0, [], "english", []⟩)],
      [("s1", ⟨"s1", "u1", 0, 0, [], "english", []⟩)], 0, []⟩
      "s1" [("k", "v")] 5).2
      ⟨"s1", "u1", 0, 0, [], "english", []⟩
      ⟨"s1", "u1", 0, 0, [], "english", []⟩
      rfl (by decide) (by decide)).1⟩

/-- Witness for C7: clear a one-message session, the history is empty at
several limits and the id survives. -/
theorem clear_session_empties_history_keeps_record_witness :
    (⟨"success", "s1", some "Session history cleared successfully"⟩ :
        SessionResponse).status = "success" ∧
    (get_user_history ⟨["u1"],
      [("s1", ⟨"s1", "u1", 0, 5, [], "english", []⟩)],
      [("s1", ⟨"s1", "u1", 0, 0, [], "english", []⟩)], 0, []⟩ "u1" 10 6).1 = [] ∧
    (∃ s2, (get_session ⟨["u1"],
      [("s1", ⟨"s1", "u1", 0, 5, [], "english", []⟩)],
      [("s1", ⟨"s1", "u1", 0, 0, [], "english", []⟩)], 0, []⟩ "u1" 7).1 = .ok s2 ∧
      s2.session_id =
        UserSession.session_id ⟨"s1", "u1", 0, 0,
          [⟨1, "hi", "user", []⟩], "english", []⟩) :=
  clear_session_empties_history_keeps_record
    ⟨["u1"], [("s1", ⟨"s1", "u1", 0, 0, [⟨1, "hi", "user", []⟩], "english", []⟩)],
      [("s1", ⟨"s1", "u1", 0, 0, [⟨1, "hi", "user", []⟩], "english", []⟩)], 0, []⟩
    "u1" 0 5 6 7 10
    ⟨"s1", "u1", 0, 0, [⟨1, "hi", "user", []⟩], "english", []⟩
    ⟨["u1"], [("s1", ⟨"s1", "u1", 0, 0, [⟨1, "hi", "user", []⟩], "english", []⟩)],
      [("s1", ⟨"s1", "u1", 0, 0, [⟨1, "hi", "user", []⟩], "english", []⟩)], 0, []⟩
    ⟨"success", "s1", some "Session history cleared successfully"⟩
    ⟨["u1"], [("s1", ⟨"s1", "u1", 0, 5, [], "english", []⟩)],
      [("s1", ⟨"s1", "u1", 0, 0, [], "english", []⟩)], 0, []⟩
    rfl (by decide) (by decide) (by decide)

/-- Witness for C8: after the clear, the cached copy keeps every field (even
`last_active`), only `messages` is emptied; the stored copy is re-stamped. -/
theorem clear_session_frame_witness :
    keyLookup (⟨["u1"],
      [("s1", ⟨"s1", "u1", 3, 5, [], "marathi", [("c", "x")]⟩)],
      [("s1", ⟨"s1", "u1", 3, 4, [], "marathi", [("c", "x")]⟩)], 0, []⟩ : FS).active_sessions
      "s1" = some ⟨"s1", "u1", 3, 4, [], "marathi", [("c", "x")]⟩ ∧
    keyLookup (⟨["u1"],
      [("s1", ⟨"s1", "u1", 3, 5, [], "marathi", [("c", "x")]⟩)],
      [("s1", ⟨"s1", "u1", 3, 4, [], "marathi", [("c", "x")]⟩)], 0, []⟩ : FS).sessions
      "s1" = some ⟨"s1", "u1", 3, 5, [], "marathi", [("c", "x")]⟩ :=
  clear_session_frame
    ⟨["u1"], [("s1", ⟨"s1", "u1", 3, 4, [⟨1, "hi", "user", []⟩], "marathi", [("c", "x")]⟩)],
      [("s1", ⟨"s1", "u1", 3, 4, [⟨1, "hi", "user", []⟩], "marathi", [("c", "x")]⟩)], 0, []⟩
    "u1" 4 5
    ⟨"s1", "u1", 3, 4, [⟨1, "hi", "user", []⟩], "marathi", [("c", "x")]⟩
    ⟨["u1"], [("s1", ⟨"s1", "u1", 3, 4, [⟨1, "hi", "user", []⟩], "marathi", [("c", "x")]⟩)],
      [("s1", ⟨"s1", "u1", 3, 4, [⟨1, "hi", "user", []⟩], "marathi", [("c", "x")]⟩)], 0, []⟩
    ⟨"success", "s1", some "Session history cleared successfully"⟩
    ⟨["u1"], [("s1", ⟨"s1", "u1", 3, 5, [], "marathi", [("c", "x")]⟩)],
      [("s1", ⟨"s1", "u1", 3, 4, [], "marathi", [("c", "x")]⟩)], 0, []⟩
    rfl (by decide) (by decide)

/-! ### C9: `last_active` across sequences of mutating calls

The three mutating operations named by the spec, each invoked at an explicit
wall-clock time. -/

inductive SMOp where
  | addMsg (session_id : String) (message : UserMessage)
  | updateContext (session_id : String) (upd : List (String × Val))
  | clearSession (user_id : String)
deriving Repr

def applyOp (st : FS) : SMOp × Nat → FS
  | (.addMsg sid m, _) => (add_message st sid m).2
  | (.updateContext sid upd, t) => (update_session_context st sid upd t).2
  | (.clearSession u, t) => (clear_session st u t).2

def runOps : FS → List (SMOp × Nat) → FS
  | st, [] => st
  | st, op :: rest => runOps (applyOp st op) rest

/-- States the service can actually be in: entries keyed by their session's
id, no duplicate keys (Python dicts and Firestore collections cannot hold
them), cache and store agreeing on each session's owner, and every key
distinct from every uuid the generator has yet to produce. -/
structure Inv (st : FS) : Prop where
  cacheKeys : ∀ p ∈ st.active_sessions, p.1 = p.2.session_id
  storeKeys : ∀ p ∈ st.sessions, p.1 = p.2.session_id
  cacheNodup : (st.active_sessions.map Prod.fst).Nodup
  storeNodup : (st.sessions.map Prod.fst).Nodup
  coherent : ∀ p ∈ st.active_sessions, ∀ q ∈ st.sessions,
    p.1 = q.1 → p.2.user_id = q.2.user_id
  freshCache : ∀ p ∈ st.active_sessions, ∀ m, st.next_uuid ≤ m → p.1 ≠ genId m
  freshStore : ∀ p ∈ st.sessions, ∀ m, st.next_uuid ≤ m → p.1 ≠ genId m

/-- The wall clock is at or past every timestamp in the state. -/
def Bound (st : FS) (t : Nat) : Prop :=
  (∀ p ∈ st.active_sessions, p.2.last_active ≤ t) ∧
  (∀ p ∈ st.sessions, p.2.last_active ≤ t)

/-- Per-session `last_active` never decreases (and sessions never vanish)
between two snapshots of a collection. -/
def laMono (d d' : List (String × UserSession)) : Prop :=
  ∀ k s, keyLookup d k = some s →
    ∃ s', keyLookup d' k = some s' ∧ s.last_active ≤ s'.last_active

theorem laMono_refl (d : List (String × UserSession)) : laMono d d :=
  fun _ s h => ⟨s, h, le_refl _⟩

theorem laMono_trans {a b c : List (String × UserSession)}
    (h1 : laMono a b) (h2 : laMono b c) : laMono a c := by
  intro k s h
  obtain ⟨s1, h1', le1⟩ := h1 k s h
  obtain ⟨s2, h2', le2⟩ := h2 k s1 h1'
  exact ⟨s2, h2', le_trans le1 le2⟩

theorem Bound_mono {st : FS} {t t' : Nat} (h : Bound st t) (hle : t ≤ t') :
    Bound st t' :=
  ⟨fun p hp => le_trans (h.1 p hp) hle, fun p hp => le_trans (h.2 p hp) hle⟩

theorem Inv_frame (st st' : FS) (hs : st'.sessions = st.sessions)
    (hc : st'.active_sessions = st.active_sessions)
    (hn : st'.next_uuid = st.next_uuid) (h : Inv st) : Inv st' := by
  refine ⟨?_, ?_, ?_, ?_, ?_, ?_, ?_⟩
  · rw [hc]; exact h.cacheKeys
  · rw [hs]; exact h.storeKeys
  · rw [hc]; exact h.cacheNodup
  · rw [hs]; exact h.storeNodup
  · rw [hc, hs]; exact h.coherent
  · rw [hc, hn]; exact h.freshCache
  · rw [hs, hn]; exact h.freshStore

theorem Bound_frame (st st' : FS) (t : Nat) (hs : st'.sessions = st.sessions)
    (hc : st'.active_sessions = st.active_sessions) (h : Bound st t) :
    Bound st' t := by
  constructor
  · rw [hc]; exact h.1
  · rw [hs]; exact h.2

theorem genId_length (n : Nat) : (genId n).length = n + 1 := by
  simp [genId, String.length]

theorem genId_inj {a b : Nat} (h : genId a = genId b) : a = b := by
  have hl := congrArg String.length h
  rw [genId_length, genId_length] at hl
  omega

theorem nodup_key_unique {α : Type} (d : List (String × α)) (k : String)
    (a b : α) (ha : (k, a) ∈ d) (hb : (k, b) ∈ d)
    (hnd : (d.map Prod.fst).Nodup) : a = b := by
  have h1 := keyLookup_of_mem_nodup d k a ha hnd
  have h2 := keyLookup_of_mem_nodup d k b hb hnd
  rw [h1] at h2
  exact Option.some.inj h2

theorem bump_uuid_Inv (st : FS) (n' : Nat) (h : st.next_uuid ≤ n')
    (hInv : Inv st) : Inv { st with next_uuid := n' } := by
  refine ⟨hInv.cacheKeys, hInv.storeKeys, hInv.cacheNodup, hInv.storeNodup,
    hInv.coherent, ?_, ?_⟩
  · intro p hp m hm
    exact hInv.freshCache p hp m (le_trans h hm)
  · intro p hp m hm
    exact hInv.freshStore p hp m (le_trans h hm)

/-- Writing a session `v` into the cache at key `k` preserves the invariant,
the clock bound, and per-session monotonicity, under the obvious obligations
on `v` and `k`. -/
theorem cache_insert_step (st : FS) (k : String) (v : UserSession) (t : Nat)
    (hInv : Inv st) (hB : Bound st t)
    (hkid : v.session_id = k)
    (hla : v.last_active ≤ t)
    (hmono : ∀ w, keyLookup st.active_sessions k = some w →
      w.last_active ≤ v.last_active)
    (hcoh : ∀ q ∈ st.sessions, q.1 = k → v.user_id = q.2.user_id)
    (hfresh : ∀ m, st.next_uuid ≤ m → k ≠ genId m) :
    Inv { st with active_sessions := dictInsert k v st.active_sessions } ∧
    Bound { st with active_sessions := dictInsert k v st.active_sessions } t ∧
    laMono st.active_sessions (dictInsert k v st.active_sessions) := by
  refine ⟨⟨?_, ?_, ?_, ?_, ?_, ?_, ?_⟩, ⟨?_, ?_⟩, ?_⟩
  · intro p hp
    rcases mem_dictInsert _ _ _ _ hp with h | h
    · rw [h]; exact hkid.symm
    · exact hInv.cacheKeys p h
  · exact hInv.storeKeys
  · exact dictInsert_keys_nodup _ _ _ hInv.cacheNodup
  · exact hInv.storeNodup
  · intro p hp q hq hpq
    rcases mem_dictInsert _ _ _ _ hp with h | h
    · rw [h] at hpq ⊢
      exact hcoh q hq hpq.symm
    · exact hInv.coherent p h q hq hpq
  · intro p hp m hm
    rcases mem_dictInsert _ _ _ _ hp with h | h
    · rw [h]; exact hfresh m hm
    · exact hInv.freshCache p h m hm
  · exact hInv.freshStore
  · intro p hp
    rcases mem_dictInsert _ _ _ _ hp with h | h
    · rw [h]; exact hla
    · exact hB.1 p h
  · exact hB.2
  · intro k' s hs
    by_cases hk : k' = k
    · subst hk
      exact ⟨v, keyLookup_dictInsert_self _ _ _, hmono s hs⟩
    · refine ⟨s, ?_, le_refl _⟩
      rw [keyLookup_dictInsert_ne _ _ _ _ hk]
      exact hs

/-- The store-side twin of `cache_insert_step`. -/
theorem store_insert_step (st : FS) (k : String) (v : UserSession) (t : Nat)
    (hInv : Inv st) (hB : Bound st t)
    (hkid : v.session_id = k)
    (hla : v.last_active ≤ t)
    (hmono : ∀ w, keyLookup st.sessions k = some w →
      w.last_active ≤ v.last_active)
    (hcoh : ∀ p ∈ st.active_sessions, p.1 = k → p.2.user_id = v.user_id)
    (hfresh : ∀ m, st.next_uuid ≤ m → k ≠ genId m) :
    Inv { st with sessions := dictInsert k v st.sessions } ∧
    Bound { st with sessions := dictInsert k v st.sessions } t ∧
    laMono st.sessions (dictInsert k v st.sessions) := by
  refine ⟨⟨?_, ?_, ?_, ?_, ?_, ?_, ?_⟩, ⟨?_, ?_⟩, ?_⟩
  · exact hInv.cacheKeys
  · intro q hq
    rcases mem_dictInsert _ _ _ _ hq with h | h
    · rw [h]; exact hkid.symm
    · exact hInv.storeKeys q h
  · exact hInv.cacheNodup
  · exact dictInsert_keys_nodup _ _ _ hInv.storeNodup
  · intro p hp q hq hpq
    rcases mem_dictInsert _ _ _ _ hq with h | h
    · rw [h] at hpq ⊢
      exact hcoh p hp hpq
    · exact hInv.coherent p hp q h hpq
  · exact hInv.freshCache
  · intro q hq m hm
    rcases mem_dictInsert _ _ _ _ hq with h | h
    · rw [h]; exact hfresh m hm
    · exact hInv.freshStore q h m hm
  · exact hB.1
  · intro q hq
    rcases mem_dictInsert _ _ _ _ hq with h | h
    · rw [h]; exact hla
    · exact hB.2 q h
  · intro k' s hs
    by_cases hk : k' = k
    · subst hk
      exact ⟨v, keyLookup_dictInsert_self _ _ _, hmono s hs⟩
    · refine ⟨s, ?_, le_refl _⟩
      rw [keyLookup_dictInsert_ne _ _ _ _ hk]
      exact hs

theorem laMono_of_eq {d d' : List (String × UserSession)} (h : d = d') :
    laMono d d' := by
  subst h
  exact laMono_refl d

theorem create_session_step (st : FS) (u : String) (t : Nat)
    (hInv : Inv st) (hB : Bound st t) :
    Inv (create_session st u t).2 ∧ Bound (create_session st u t).2 t ∧
    laMono st.active_sessions (create_session st u t).2.active_sessions ∧
    laMono st.sessions (create_session st u t).2.sessions ∧
    keyLookup (create_session st u t).2.active_sessions
      (create_session st u t).1.session_id = some (create_session st u t).1 ∧
    (create_session st u t).1.last_active ≤ t := by
  rcases htf : takeFlag { st with next_uuid := st.next_uuid + 1 } with ⟨f, st2⟩
  have hfr := takeFlag_frame { st with next_uuid := st.next_uuid + 1 }
  rw [htf] at hfr
  have hs2s : st2.sessions = st.sessions := hfr.2.1
  have hs2c : st2.active_sessions = st.active_sessions := hfr.2.2.1
  have hs2n : st2.next_uuid = st.next_uuid + 1 := hfr.2.2.2
  have hInv2 : Inv st2 :=
    Inv_frame { st with next_uuid := st.next_uuid + 1 } st2 hs2s hs2c hs2n
      (bump_uuid_Inv st _ (Nat.le_succ _) hInv)
  have hB2 : Bound st2 t :=
    Bound_frame { st with next_uuid := st.next_uuid + 1 } st2 t hs2s hs2c hB
  cases f with
  | false =>
    have hEq : create_session st u t =
        (⟨genId st.next_uuid, u, t, t, [], "english", []⟩,
         { st2 with
            sessions := dictInsert (genId st.next_uuid)
              ⟨genId st.next_uuid, u, t, t, [], "english", []⟩ st2.sessions,
            active_sessions := dictInsert (genId st.next_uuid)
              ⟨genId st.next_uuid, u, t, t, [], "english", []⟩ st2.active_sessions }) := by
      simp [create_session, htf]
    obtain ⟨hInv3, hB3, hmonoS⟩ :=
      store_insert_step st2 (genId st.next_uuid)
        ⟨genId st.next_uuid, u, t, t, [], "english", []⟩ t hInv2 hB2 rfl
        (le_refl t)
        (by
          intro w hw
          rw [hs2s] at hw
          exact absurd rfl
            (hInv.freshStore _ (keyLookup_mem _ _ _ hw) st.next_uuid (le_refl _)))
        (by
          intro p hp hpk
          rw [hs2c] at hp
          exact absurd hpk (hInv.freshCache p hp st.next_uuid (le_refl _)))
        (by
          intro m hm heq
          have := genId_inj heq
          omega)
    obtain ⟨hInv4, hB4, hmonoC⟩ :=
      cache_insert_step
        { st2 with
            sessions := dictInsert (genId st.next_uuid)
              ⟨genId st.next_uuid, u, t, t, [], "english", []⟩ st2.sessions }
        (genId st.next_uuid)
        ⟨genId st.next_uuid, u, t, t, [], "english", []⟩ t hInv3 hB3 rfl
        (le_refl t)
        (by
          intro w hw
          have hw' : keyLookup st.active_sessions (genId st.next_uuid) = some w := by
            rw [← hs2c]
            exact hw
          exact absurd rfl
            (hInv.freshCache _ (keyLookup_mem _ _ _ hw') st.next_uuid (le_refl _)))
        (by
          intro q hq hqk
          rcases mem_dictInsert _ _ _ _ hq with h | h
          · rw [h]
          · rw [hs2s] at h
            exact absurd hqk (hInv.freshStore q h st.next_uuid (le_refl _)))
        (by
          intro m hm heq
          have h1 := genId_inj heq
          have hm' : st2.next_uuid ≤ m := hm
          omega)
    rw [hEq]
    refine ⟨hInv4, hB4, ?_, ?_, keyLookup_dictInsert_self _ _ _, le_refl t⟩
    · rw [← hs2c]
      exact hmonoC
    · rw [← hs2s]
      exact hmonoS
  | true =>
    have hEq : create_session st u t =
        (⟨genId st2.next_uuid, u, t, t, [], "english", []⟩,
         { st2 with
            next_uuid := st2.next_uuid + 1,
            active_sessions := dictInsert (genId st2.next_uuid)
              ⟨genId st2.next_uuid, u, t, t, [], "english", []⟩ st2.active_sessions }) := by
      simp [create_session, htf]
    have hInv3 : Inv { st2 with next_uuid := st2.next_uuid + 1 } :=
      bump_uuid_Inv st2 _ (Nat.le_succ _) hInv2
    have hB3 : Bound { st2 with next_uuid := st2.next_uuid + 1 } t :=
      Bound_frame st2 _ t rfl rfl hB2
    obtain ⟨hInv4, hB4, hmonoC⟩ :=
      cache_insert_step { st2 with next_uuid := st2.next_uuid + 1 }
        (genId st2.next_uuid)
        ⟨genId st2.next_uuid, u, t, t, [], "english", []⟩ t hInv3 hB3 rfl
        (le_refl t)
        (by
          intro w hw
          have hw' : keyLookup st.active_sessions (genId st2.next_uuid) = some w := by
            rw [← hs2c]
            exact hw
          refine absurd rfl
            (hInv.freshCache _ (keyLookup_mem _ _ _ hw') st2.next_uuid ?_)
          omega)
        (by
          intro q hq hqk
          have hq' : q ∈ st.sessions := by
            rw [← hs2s]
            exact hq
          refine absurd hqk (hInv.freshStore q hq' st2.next_uuid ?_)
          omega)
        (by
          intro m hm heq
          have := genId_inj heq
          simp at hm
          omega)
    rw [hEq]
    refine ⟨hInv4, hB4, ?_, ?_, keyLookup_dictInsert_self _ _ _, le_refl t⟩
    · rw [← hs2c]
      exact hmonoC
    · exact laMono_of_eq hs2s.symm

theorem get_session_lookup_step (st1 : FS) (u : String) (t : Nat)
    (hInv : Inv st1) (hB : Bound st1 t) :
    Inv (get_session_lookup st1 u t).2 ∧
    Bound (get_session_lookup st1 u t).2 t ∧
    laMono st1.active_sessions (get_session_lookup st1 u t).2.active_sessions ∧
    laMono st1.sessions (get_session_lookup st1 u t).2.sessions ∧
    (∀ r, (get_session_lookup st1 u t).1 = .ok r →
      keyLookup (get_session_lookup st1 u t).2.active_sessions r.session_id =
        some r) := by
  rcases hc : cacheFindUser st1.active_sessions u with _ | s
  · rcases htf : takeFlag st1 with ⟨f, st2⟩
    have hfr := takeFlag_frame st1
    rw [htf] at hfr
    have hs2s : st2.sessions = st1.sessions := hfr.2.1
    have hs2c : st2.active_sessions = st1.active_sessions := hfr.2.2.1
    have hs2n : st2.next_uuid = st1.next_uuid := hfr.2.2.2
    have hInv2 : Inv st2 := Inv_frame st1 st2 hs2s hs2c hs2n hInv
    have hB2 : Bound st2 t := Bound_frame st1 st2 t hs2s hs2c hB
    cases f with
    | true =>
      have hEq : get_session_lookup st1 u t =
          (.ok (create_session st2 u t).1, (create_session st2 u t).2) := by
        simp [get_session_lookup, hc, htf]
      obtain ⟨hI, hBd, hmc, hms, hkl, _⟩ := create_session_step st2 u t hInv2 hB2
      rw [hEq]
      refine ⟨hI, hBd, ?_, ?_, ?_⟩
      · exact laMono_trans (laMono_of_eq hs2c.symm) hmc
      · exact laMono_trans (laMono_of_eq hs2s.symm) hms
      · intro r hr
        have hr' := Except.ok.inj hr
        subst hr'
        exact hkl
    | false =>
      rcases hq : queryByUser st2.sessions u with _ | ⟨sid, d⟩
      · have hEq : get_session_lookup st1 u t =
            (.ok (create_session st2 u t).1, (create_session st2 u t).2) := by
          simp [get_session_lookup, hc, htf, hq]
        obtain ⟨hI, hBd, hmc, hms, hkl, _⟩ := create_session_step st2 u t hInv2 hB2
        rw [hEq]
        refine ⟨hI, hBd, ?_, ?_, ?_⟩
        · exact laMono_trans (laMono_of_eq hs2c.symm) hmc
        · exact laMono_trans (laMono_of_eq hs2s.symm) hms
        · intro r hr
          have hr' := Except.ok.inj hr
          subst hr'
          exact hkl
      · have hEq : get_session_lookup st1 u t =
            (.ok (hydrate sid d),
             { st2 with active_sessions :=
                dictInsert sid (hydrate sid d) st2.active_sessions }) := by
          simp [get_session_lookup, hc, htf, hq]
        obtain ⟨hmem, hqu⟩ := queryByUser_some _ _ _ hq
        have hc2 : cacheFindUser st2.active_sessions u = none := by
          rw [hs2c]
          exact hc
        have hnone : keyLookup st2.active_sessions sid = none := by
          rcases hkl2 : keyLookup st2.active_sessions sid with _ | w
          · rfl
          · exfalso
            have hwmem : (sid, w) ∈ st2.active_sessions := keyLookup_mem _ _ _ hkl2
            have hcoh := hInv2.coherent (sid, w) hwmem (sid, d) hmem rfl
            have hwne := (cacheFindUser_eq_none_iff st2.active_sessions u).mp hc2
              (sid, w) hwmem
            exact hwne (by rw [hcoh]; exact hqu)
        obtain ⟨hI, hBd, hmc⟩ :=
          cache_insert_step st2 sid (hydrate sid d) t hInv2 hB2 rfl
            (hB2.2 (sid, d) hmem)
            (by
              intro w hw
              rw [hnone] at hw
              cases hw)
            (by
              intro q hq' hqk
              have hq2 : (sid, q.2) ∈ st2.sessions := by
                rw [← hqk]
                exact hq'
              have hdq := nodup_key_unique st2.sessions sid d q.2 hmem hq2
                hInv2.storeNodup
              show d.user_id = q.2.user_id
              rw [hdq])
            (fun m hm => hInv2.freshStore (sid, d) hmem m hm)
        rw [hEq]
        refine ⟨hI, hBd, ?_, ?_, ?_⟩
        · exact laMono_trans (laMono_of_eq hs2c.symm) hmc
        · exact laMono_of_eq hs2s.symm
        · intro r hr
          have hr' := Except.ok.inj hr
          subst hr'
          exact keyLookup_dictInsert_self _ _ _
  · have hEq : get_session_lookup st1 u t = (.ok s, st1) := by
      simp [get_session_lookup, hc]
    rw [hEq]
    refine ⟨hInv, hB, laMono_refl _, laMono_refl _, ?_⟩
    intro r hr
    have hr' := Except.ok.inj hr
    subst hr'
    obtain ⟨hsu, k, hks⟩ := cacheFindUser_some _ _ _ hc
    have hkid : k = s.session_id := hInv.cacheKeys (k, s) hks
    rw [hkid] at hks
    exact keyLookup_of_mem_nodup _ _ _ hks hInv.cacheNodup

theorem get_session_step (st : FS) (u : String) (t : Nat)
    (hInv : Inv st) (hB : Bound st t) :
    Inv (get_session st u t).2 ∧ Bound (get_session st u t).2 t ∧
    laMono st.active_sessions (get_session st u t).2.active_sessions ∧
    laMono st.sessions (get_session st u t).2.sessions ∧
    (∀ r, (get_session st u t).1 = .ok r →
      keyLookup (get_session st u t).2.active_sessions r.session_id = some r) := by
  by_cases hu : u = ""
  · have hEq : get_session st u t =
        (.error (.valueError "User ID cannot be empty"), st) := by
      simp [get_session, hu]
    rw [hEq]
    exact ⟨hInv, hB, laMono_refl _, laMono_refl _,
      fun r hr => absurd hr (by simp)⟩
  by_cases ha : u = "anonymous"
  · have hEq : get_session st u t = get_session_lookup st u t := by
      subst ha
      simp [get_session, hu]
    rw [hEq]
    exact get_session_lookup_step st u t hInv hB
  · rcases hue : user_exists st u with ⟨ex, st1⟩
    have hfr := user_exists_frame st u
    rw [hue] at hfr
    have hs1s : st1.sessions = st.sessions := hfr.2.1
    have hs1c : st1.active_sessions = st.active_sessions := hfr.2.2.1
    have hs1n : st1.next_uuid = st.next_uuid := hfr.2.2.2
    have hInv1 : Inv st1 := Inv_frame st st1 hs1s hs1c hs1n hInv
    have hB1 : Bound st1 t := Bound_frame st st1 t hs1s hs1c hB
    cases ex with
    | false =>
      have hEq : get_session st u t =
          (.error (.valueError ("User with ID " ++ u ++ " does not exist")),
           st1) := by
        simp [get_session, hu, ha, hue]
      rw [hEq]
      exact ⟨hInv1, hB1, laMono_of_eq hs1c.symm, laMono_of_eq hs1s.symm,
        fun r hr => absurd hr (by simp)⟩
    | true =>
      have hEq : get_session st u t = get_session_lookup st1 u t := by
        simp [get_session, hu, ha, hue]
      rw [hEq]
      obtain ⟨hI, hBd, hmc, hms, hkl⟩ := get_session_lookup_step st1 u t hInv1 hB1
      exact ⟨hI, hBd, laMono_trans (laMono_of_eq hs1c.symm) hmc,
        laMono_trans (laMono_of_eq hs1s.symm) hms, hkl⟩

theorem update_ctx_apply_step (st1 : FS) (sid : String)
    (upd : List (String × Val)) (t : Nat) (hInv : Inv st1) (hB : Bound st1 t) :
    Inv (update_ctx_apply st1 sid upd t).2 ∧
    Bound (update_ctx_apply st1 sid upd t).2 t ∧
    laMono st1.active_sessions (update_ctx_apply st1 sid upd t).2.active_sessions ∧
    laMono st1.sessions (update_ctx_apply st1 sid upd t).2.sessions := by
  rcases hkc : keyLookup st1.active_sessions sid with _ | s
  · have hEq : update_ctx_apply st1 sid upd t = (none, st1) := by
      simp [update_ctx_apply, hkc]
    rw [hEq]
    exact ⟨hInv, hB, laMono_refl _, laMono_refl _⟩
  · have hsmem : (sid, s) ∈ st1.active_sessions := keyLookup_mem _ _ _ hkc
    have hsid : s.session_id = sid := (hInv.cacheKeys (sid, s) hsmem).symm
    obtain ⟨hI2, hB2, hmc2⟩ :=
      cache_insert_step st1 sid
        { s with context := dictMerge s.context upd, last_active := t } t hInv hB
        hsid (le_refl t)
        (by
          intro w hw
          rw [hkc] at hw
          have hws := Option.some.inj hw
          subst hws
          exact hB.1 (sid, s) hsmem)
        (by
          intro q hq hqk
          exact hInv.coherent (sid, s) hsmem q hq hqk.symm)
        (fun m hm => hInv.freshCache (sid, s) hsmem m hm)
    rcases htf : takeFlag { st1 with active_sessions := dictInsert sid { s with context := dictMerge s.context upd, last_active := t } st1.active_sessions } with ⟨f, st3⟩
    have hfr := takeFlag_frame { st1 with active_sessions := dictInsert sid { s with context := dictMerge s.context upd, last_active := t } st1.active_sessions }
    rw [htf] at hfr
    have hs3s : st3.sessions = st1.sessions := hfr.2.1
    have hs3c : st3.active_sessions = dictInsert sid { s with context := dictMerge s.context upd, last_active := t } st1.active_sessions := hfr.2.2.1
    have hs3n : st3.next_uuid = st1.next_uuid := hfr.2.2.2
    have hI3 : Inv st3 := Inv_frame { st1 with active_sessions := dictInsert sid { s with context := dictMerge s.context upd, last_active := t } st1.active_sessions } st3 hs3s hs3c hs3n hI2
    have hB3 : Bound st3 t := Bound_frame { st1 with active_sessions := dictInsert sid { s with context := dictMerge s.context upd, last_active := t } st1.active_sessions } st3 t hs3s hs3c hB2
    cases f with
    | true =>
      have hEq : update_ctx_apply st1 sid upd t = (none, st3) := by
        simp [update_ctx_apply, hkc, fsUpdateDoc, htf]
      rw [hEq]
      refine ⟨hI3, hB3, ?_, ?_⟩
      · exact laMono_trans hmc2 (laMono_of_eq hs3c.symm)
      · exact laMono_of_eq hs3s.symm
    | false =>
      rcases hks : keyLookup st3.sessions sid with _ | dd
      · have hEq : update_ctx_apply st1 sid upd t = (none, st3) := by
          simp [update_ctx_apply, hkc, fsUpdateDoc, htf, hks]
        rw [hEq]
        refine ⟨hI3, hB3, ?_, ?_⟩
        · exact laMono_trans hmc2 (laMono_of_eq hs3c.symm)
        · exact laMono_of_eq hs3s.symm
      · have hddmem : (sid, dd) ∈ st3.sessions := keyLookup_mem _ _ _ hks
        have hddmem1 : (sid, dd) ∈ st1.sessions := by
          rw [← hs3s]
          exact hddmem
        have hddid : dd.session_id = sid := (hI3.storeKeys (sid, dd) hddmem).symm
        obtain ⟨hI4, hB4, hms4⟩ :=
          store_insert_step st3 sid
            { dd with context := dictMerge s.context upd, last_active := t } t hI3 hB3
            hddid (le_refl t)
            (by
              intro w hw
              rw [hks] at hw
              have hws := Option.some.inj hw
              subst hws
              exact hB3.2 (sid, dd) hddmem)
            (by
              intro p hp hpk
              have hp' : p ∈ dictInsert sid { s with context := dictMerge s.context upd, last_active := t } st1.active_sessions := by
                rw [← hs3c]
                exact hp
              rcases mem_dictInsert _ _ _ _ hp' with h | h
              · rw [h]
                exact hInv.coherent (sid, s) hsmem (sid, dd) hddmem1 rfl
              · have hp2 : (sid, p.2) ∈ st1.active_sessions := by
                  rw [← hpk]
                  exact h
                have := nodup_key_unique st1.active_sessions sid p.2 s hp2 hsmem
                  hInv.cacheNodup
                rw [show p.2.user_id = s.user_id by rw [this]]
                exact hInv.coherent (sid, s) hsmem (sid, dd) hddmem1 rfl)
            (by
              intro m hm
              have hm' : st1.next_uuid ≤ m := by
                rw [← hs3n]
                exact hm
              exact hInv.freshStore (sid, dd) hddmem1 m hm')
        have hEq : update_ctx_apply st1 sid upd t =
            (some { s with context := dictMerge s.context upd, last_active := t },
             { st3 with sessions := dictInsert sid { dd with context := dictMerge s.context upd, last_active := t } st3.sessions }) := by
          simp [update_ctx_apply, hkc, fsUpdateDoc, htf, hks]
        rw [hEq]
        refine ⟨hI4, hB4, ?_, ?_⟩
        · exact laMono_trans hmc2 (laMono_of_eq hs3c.symm)
        · exact laMono_trans (laMono_of_eq hs3s.symm) hms4

theorem update_session_context_step (st : FS) (sid : String)
    (upd : List (String × Val)) (t : Nat) (hInv : Inv st) (hB : Bound st t) :
    Inv (update_session_context st sid upd t).2 ∧
    Bound (update_session_context st sid upd t).2 t ∧
    laMono st.active_sessions
      (update_session_context st sid upd t).2.active_sessions ∧
    laMono st.sessions (update_session_context st sid upd t).2.sessions := by
  rcases hkc : keyLookup st.active_sessions sid with _ | s
  · rcases htf : takeFlag st with ⟨f, st1⟩
    have hfr := takeFlag_frame st
    rw [htf] at hfr
    have hs1s : st1.sessions = st.sessions := hfr.2.1
    have hs1c : st1.active_sessions = st.active_sessions := hfr.2.2.1
    have hs1n : st1.next_uuid = st.next_uuid := hfr.2.2.2
    have hI1 : Inv st1 := Inv_frame st st1 hs1s hs1c hs1n hInv
    have hB1 : Bound st1 t := Bound_frame st st1 t hs1s hs1c hB
    cases f with
    | true =>
      have hEq : update_session_context st sid upd t = (none, st1) := by
        simp [update_session_context, hkc, htf]
      rw [hEq]
      exact ⟨hI1, hB1, laMono_of_eq hs1c.symm, laMono_of_eq hs1s.symm⟩
    | false =>
      rcases hks : keyLookup st1.sessions sid with _ | d
      · have hEq : update_session_context st sid upd t = (none, st1) := by
          simp [update_session_context, hkc, htf, hks]
        rw [hEq]
        exact ⟨hI1, hB1, laMono_of_eq hs1c.symm, laMono_of_eq hs1s.symm⟩
      · rcases hgs : get_session st1 d.user_id t with ⟨res, st2⟩
        obtain ⟨hI2, hB2, hmc2, hms2, _⟩ := get_session_step st1 d.user_id t hI1 hB1
        rw [hgs] at hI2 hB2 hmc2 hms2
        cases res with
        | error e =>
          have hEq : update_session_context st sid upd t = (none, st2) := by
            simp [update_session_context, hkc, htf, hks, hgs]
          rw [hEq]
          refine ⟨hI2, hB2, ?_, ?_⟩
          · exact laMono_trans (laMono_of_eq hs1c.symm) hmc2
          · exact laMono_trans (laMono_of_eq hs1s.symm) hms2
        | ok r =>
          have hEq : update_session_context st sid upd t =
              update_ctx_apply st2 sid upd t := by
            simp [update_session_context, hkc, htf, hks, hgs]
          rw [hEq]
          obtain ⟨hI3, hB3, hmc3, hms3⟩ := update_ctx_apply_step st2 sid upd t hI2 hB2
          refine ⟨hI3, hB3, ?_, ?_⟩
          · exact laMono_trans (laMono_of_eq hs1c.symm) (laMono_trans hmc2 hmc3)
          · exact laMono_trans (laMono_of_eq hs1s.symm) (laMono_trans hms2 hms3)
  · have hEq : update_session_context st sid upd t =
        update_ctx_apply st sid upd t := by
      simp [update_session_context, hkc]
    rw [hEq]
    exact update_ctx_apply_step st sid upd t hInv hB

theorem clear_session_step (st : FS) (u : String) (t : Nat)
    (hInv : Inv st) (hB : Bound st t) :
    Inv (clear_session st u t).2 ∧ Bound (clear_session st u t).2 t ∧
    laMono st.active_sessions (clear_session st u t).2.active_sessions ∧
    laMono st.sessions (clear_session st u t).2.sessions := by
  by_cases hu : u = ""
  · have hEq : clear_session st u t =
        (⟨"error", "", some "User ID is required"⟩, st) := by
      simp [clear_session, hu]
    rw [hEq]
    exact ⟨hInv, hB, laMono_refl _, laMono_refl _⟩
  · rcases hgs : get_session st u t with ⟨res, st1⟩
    obtain ⟨hI1, hB1, hmc1, hms1, hok⟩ := get_session_step st u t hInv hB
    rw [hgs] at hI1 hB1 hmc1 hms1 hok
    cases res with
    | error e =>
      have hEq : clear_session st u t =
          (⟨"error", "", some "Error clearing session"⟩, st1) := by
        simp [clear_session, hu, hgs]
      rw [hEq]
      exact ⟨hI1, hB1, hmc1, hms1⟩
    | ok s =>
      have hcached : keyLookup st1.active_sessions s.session_id = some s :=
        hok s rfl
      have hsmem : (s.session_id, s) ∈ st1.active_sessions :=
        keyLookup_mem _ _ _ hcached
      have hla_s : s.last_active ≤ t := hB1.1 (s.session_id, s) hsmem
      obtain ⟨hI2, hB2, hmc2⟩ :=
        cache_insert_step st1 s.session_id { s with messages := [] } t hI1 hB1
          rfl hla_s
          (by
            intro w hw
            rw [hcached] at hw
            have hws := Option.some.inj hw
            subst hws
            exact le_refl _)
          (by
            intro q hq hqk
            exact hI1.coherent (s.session_id, s) hsmem q hq hqk.symm)
          (fun m hm => hI1.freshCache (s.session_id, s) hsmem m hm)
      rcases htf : takeFlag { st1 with active_sessions := dictInsert s.session_id { s with messages := [] } st1.active_sessions } with ⟨f, st3⟩
      have hfr := takeFlag_frame { st1 with active_sessions := dictInsert s.session_id { s with messages := [] } st1.active_sessions }
      rw [htf] at hfr
      have hs3s : st3.sessions = st1.sessions := hfr.2.1
      have hs3c : st3.active_sessions = dictInsert s.session_id { s with messages := [] } st1.active_sessions := hfr.2.2.1
      have hs3n : st3.next_uuid = st1.next_uuid := hfr.2.2.2
      have hI3 : Inv st3 := Inv_frame { st1 with active_sessions := dictInsert s.session_id { s with messages := [] } st1.active_sessions } st3 hs3s hs3c hs3n hI2
      have hB3 : Bound st3 t := Bound_frame { st1 with active_sessions := dictInsert s.session_id { s with messages := [] } st1.active_sessions } st3 t hs3s hs3c hB2
      cases f with
      | true =>
        have hEq : clear_session st u t =
            (⟨"success", s.session_id, some "Session history cleared successfully"⟩,
             st3) := by
          simp [clear_session, hu, hgs, htf]
        rw [hEq]
        refine ⟨hI3, hB3, ?_, ?_⟩
        · exact laMono_trans hmc1 (laMono_trans hmc2 (laMono_of_eq hs3c.symm))
        · exact laMono_trans hms1 (laMono_of_eq hs3s.symm)
      | false =>
        obtain ⟨hI4, hB4, hms4⟩ :=
          store_insert_step st3 s.session_id
            { s with messages := [], last_active := t } t hI3 hB3 rfl (le_refl t)
            (by
              intro w hw
              have hw1 : keyLookup st1.sessions s.session_id = some w := by
                rw [← hs3s]
                exact hw
              exact hB1.2 (s.session_id, w) (keyLookup_mem _ _ _ hw1))
            (by
              intro p hp hpk
              have hp' : p ∈ dictInsert s.session_id { s with messages := [] } st1.active_sessions := by
                rw [← hs3c]
                exact hp
              rcases mem_dictInsert _ _ _ _ hp' with h | h
              · rw [h]
              · have hp2 : (s.session_id, p.2) ∈ st1.active_sessions := by
                  rw [← hpk]
                  exact h
                have := nodup_key_unique st1.active_sessions s.session_id p.2 s
                  hp2 hsmem hI1.cacheNodup
                show p.2.user_id = s.user_id
                rw [this])
            (by
              intro m hm
              have hm' : st1.next_uuid ≤ m := by
                rw [← hs3n]
                exact hm
              exact hI1.freshCache (s.session_id, s) hsmem m hm')
        have hEq : clear_session st u t =
            (⟨"success", s.session_id, some "Session history cleared successfully"⟩,
             { st3 with sessions := dictInsert s.session_id { s with messages := [], last_active := t } st3.sessions }) := by
          simp [clear_session, hu, hgs, htf]
        rw [hEq]
        refine ⟨hI4, hB4, ?_, ?_⟩
        · exact laMono_trans hmc1 (laMono_trans hmc2 (laMono_of_eq hs3c.symm))
        · exact laMono_trans hms1 (laMono_trans (laMono_of_eq hs3s.symm) hms4)

theorem applyOp_step (st : FS) (op : SMOp) (t : Nat)
    (hInv : Inv st) (hB : Bound st t) :
    Inv (applyOp st (op, t)) ∧ Bound (applyOp st (op, t)) t ∧
    laMono st.active_sessions (applyOp st (op, t)).active_sessions ∧
    laMono st.sessions (applyOp st (op, t)).sessions := by
  cases op with
  | addMsg sid m =>
    exact ⟨hInv, hB, laMono_refl _, laMono_refl _⟩
  | updateContext sid upd =>
    exact update_session_context_step st sid upd t hInv hB
  | clearSession u =>
    exact clear_session_step st u t hInv hB

theorem runOps_laMono (ops : List (SMOp × Nat)) : ∀ (st : FS) (t0 : Nat),
    Inv st → Bound st t0 →
    List.Chain (fun a b => a ≤ b) t0 (ops.map Prod.snd) →
    laMono st.active_sessions (runOps st ops).active_sessions ∧
    laMono st.sessions (runOps st ops).sessions := by
  induction ops with
  | nil =>
    intro st t0 _ _ _
    exact ⟨laMono_refl _, laMono_refl _⟩
  | cons op rest ih =>
    intro st t0 hInv hB hchain
    rw [List.map_cons, List.chain_cons] at hchain
    obtain ⟨hle, hchain'⟩ := hchain
    have hB' : Bound st op.2 := Bound_mono hB hle
    obtain ⟨hI1, hB1, hmc, hms⟩ := applyOp_step st op.1 op.2 hInv hB'
    obtain ⟨hmc', hms'⟩ := ih (applyOp st op) op.2 hI1 hB1 hchain'
    exact ⟨laMono_trans hmc hmc', laMono_trans hms hms'⟩

/-- Counterexample to C9 as stated: `clear_session` invoked at time 5 mutates
the session (its message list is emptied) yet the cached session's
`last_active` stays 0 — `last_active` is not updated on this mutation; only
the persisted copy gets re-stamped. -/
theorem clear_session_mutates_without_updating_cached_last_active :
    (clear_session ⟨["u1"],
      [("s1", ⟨"s1", "u1", 0, 0, [⟨1, "hi", "user", []⟩], "english", []⟩)],
      [("s1", ⟨"s1", "u1", 0, 0, [⟨1, "hi", "user", []⟩], "english", []⟩)],
      0, []⟩ "u1" 5).1.status = "success" ∧
    keyLookup (clear_session ⟨["u1"],
      [("s1", ⟨"s1", "u1", 0, 0, [⟨1, "hi", "user", []⟩], "english", []⟩)],
      [("s1", ⟨"s1", "u1", 0, 0, [⟨1, "hi", "user", []⟩], "english", []⟩)],
      0, []⟩ "u1" 5).2.active_sessions "s1" =
      some ⟨"s1", "u1", 0, 0, [], "english", []⟩ ∧
    keyLookup (clear_session ⟨["u1"],
      [("s1", ⟨"s1", "u1", 0, 0, [⟨1, "hi", "user", []⟩], "english", []⟩)],
      [("s1", ⟨"s1", "u1", 0, 0, [⟨1, "hi", "user", []⟩], "english", []⟩)],
      0, []⟩ "u1" 5).2.sessions "s1" =
      some ⟨"s1", "u1", 0, 5, [], "english", []⟩ :=
  ⟨rfl, rfl, rfl⟩

/-- C9 (amended): across any sequence of `append_message`, `update_context`
and `clear_session` calls made at non-decreasing wall-clock times (starting
at or past every timestamp already in the state), each session's
`last_active` — in the cache and in the store — never decreases, and no
session record disappears.  The unamended "updated on every such mutation"
part fails: `clear_session` re-stamps only the persisted copy, leaving the
cached `last_active` untouched, and `append_message` always raises without
mutating anything. -/
theorem last_active_monotone_across_calls (st : FS) (t0 : Nat)
    (ops : List (SMOp × Nat)) (hInv : Inv st) (hB : Bound st t0)
    (hchain : List.Chain (fun a b => a ≤ b) t0 (ops.map Prod.snd)) :
    laMono st.active_sessions (runOps st ops).active_sessions ∧
    laMono st.sessions (runOps st ops).sessions :=
  runOps_laMono ops st t0 hInv hB hchain

/-- Witness for C9 (amended): a well-formed one-session state run through an
`update_context` at time 3 and a `clear_session` at time 5. -/
theorem last_active_monotone_across_calls_witness :
    laMono
      (⟨["u1"], [("s1", ⟨"s1", "u1", 0, 0, [], "english", []⟩)],
        [("s1", ⟨"s1", "u1", 0, 0, [], "english", []⟩)], 0, []⟩ : FS).active_sessions
      (runOps ⟨["u1"], [("s1", ⟨"s1", "u1", 0, 0, [], "english", []⟩)],
        [("s1", ⟨"s1", "u1", 0, 0, [], "english", []⟩)], 0, []⟩
        [(.updateContext "s1" [("k", "v")], 3),
         (.clearSession "u1", 5)]).active_sessions ∧
    laMono
      (⟨["u1"], [("s1", ⟨"s1", "u1", 0, 0, [], "english", []⟩)],
        [("s1", ⟨"s1", "u1", 0, 0, [], "english", []⟩)], 0, []⟩ : FS).sessions
      (runOps ⟨["u1"], [("s1", ⟨"s1", "u1", 0, 0, [], "english", []⟩)],
        [("s1", ⟨"s1", "u1", 0, 0, [], "english", []⟩)], 0, []⟩
        [(.updateContext "s1" [("k", "v")], 3),
         (.clearSession "u1", 5)]).sessions :=
  last_active_monotone_across_calls
    ⟨["u1"], [("s1", ⟨"s1", "u1", 0, 0, [], "english", []⟩)],
      [("s1", ⟨"s1", "u1", 0, 0, [], "english", []⟩)], 0, []⟩ 0
    [(.updateContext "s1" [("k", "v")], 3), (.clearSession "u1", 5)]
    ⟨by decide, by decide, by decide, by decide, by decide,
     (by
       intro p hp m hm heq
       simp only [List.mem_singleton] at hp
       subst hp
       have hl := congrArg String.length heq
       rw [genId_length] at hl
       have h2 : ("s1" : String).length = 2 := rfl
       rw [h2] at hl
       have hm1 : m = 1 := by omega
       subst hm1
       exact absurd heq (by decide)),
     (by
       intro p hp m hm heq
       simp only [List.mem_singleton] at hp
       subst hp
       have hl := congrArg String.length heq
       rw [genId_length] at hl
       have h2 : ("s1" : String).length = 2 := rfl
       rw [h2] at hl
       have hm1 : m = 1 := by omega
       subst hm1
       exact absurd heq (by decide))⟩
    ⟨by decide, by decide⟩
    (List.Chain.cons (by omega) (List.Chain.cons (by omega) List.Chain.nil))

end SessionService
